import Mathlib

/-!
# Event emission of a posnode `Node` (`src/posnode/emitter.go`)

A shallow embedding of the emitter: the transaction buffer, the candidate
selection, the parent-resolution loop and the construction of the new event.

Conventions of the embedding.

* `uint64` values (`Index`, heights, `LamportTime`) are naturals; every
  addition the program performs on them is reduced modulo `2 ^ 64`.
* `int` is taken as a 64-bit signed integer: `EventParentsCount` carries its
  range, and the subtraction `EventParentsCount - 1` wraps.
* `hash.Peer` and `hash.Event` are hashes, embedded as naturals;
  `hash.Events` (a Go map used as a set) is a `Finset`.
* The collaborators the file only calls (the store, the peer snapshot, the
  signer, `saveNewEvent`, the library routine `sort.Sort`) are fields of the
  node or of an environment record `Env`.
* A Go panic is an `Except.error` result, returned together with the node
  state the panic leaves behind.
* The scheduler (`StartEventEmission`, `StopEventEmission` and the background
  loop) acts on a `World`: the node, the channels made and closed so far and
  the loops spawned. The loop is a small-step machine, and an interleaving of
  the loop with the owner's calls and the ticker is a list of `Action`s.
-/

namespace posnode

/-! ## Data model -/

/-- Identity of a peer (`hash.Peer`). -/
abbrev Peer := Nat

/-- Hash of an event (`hash.Event`). -/
abbrev EventHash := Nat

/-- Set of event hashes (`hash.Events`, a map from hash to the empty struct). -/
abbrev Events := Finset EventHash

/-- One transaction payload (`[]byte`). -/
abbrev Payload := List UInt8

/-- Modelled from the spec: the well-known genesis/zero parent marker
`hash.ZeroEvent`, declared in package `hash`; taken as the all-zero hash. -/
def ZeroEvent : EventHash := 0

/-- Number of values of a `uint64`. -/
def uint64Size : Nat := 18446744073709551616

/-- Result of an `int` computation on a 64-bit platform (two's complement wrap). -/
def wrapInt (i : Int) : Int :=
  (i + 9223372036854775808) % 18446744073709551616 - 9223372036854775808

/-- The fields of `inter.Event` that `EmitEvent` fills in, and the signature
`SignBy` attaches (`none` until signing succeeded). -/
structure Event where
  Index : Nat
  Creator : Peer
  Parents : Events
  LamportTime : Nat
  ExternalTransactions : List Payload
  Sign : Option Nat
deriving DecidableEq

/-- The read interface of the store used by `EmitEvent`: `GetPeerHeight`,
`GetEventHash` and `GetEvent`; a `nil` result is `none`. -/
structure Store where
  GetPeerHeight : Peer → Nat
  GetEventHash : Peer → Nat → Option EventHash
  GetEvent : EventHash → Option Event

/-- The part of the node configuration read by `EmitEvent`. -/
structure Config where
  EventParentsCount : Int
  inRange : -9223372036854775808 ≤ EventParentsCount ∧ EventParentsCount < 9223372036854775808

/-- Creates events from external transactions: the buffer and the `done`
channel (`none` is the nil channel, `some c` a channel with identity `c`). -/
structure emitter where
  transactions : List Payload
  done : Option Nat

/-- The node state `EmitEvent` works on; `peers` is what `n.peers.Snapshot()`
returns. -/
structure Node where
  ID : Peer
  conf : Config
  store : Store
  peers : List Peer
  emitter : emitter

/-- Why a call panicked. -/
inductive Panic where
  | sliceBounds
  | signing
  | closeOfNilChannel
  | closeOfClosedChannel
deriving DecidableEq

/-! ## `emitterEvaluation`: the `sort.Interface` over the peer slice -/

/-- The peers being ranked (the `node` pointer is never read by `Len`, `Swap`
or `Less`). -/
structure emitterEvaluation where
  peers : List Peer

/-- The evaluation function for the emitter over the given peers. -/
def Node.emitterEvaluation (_n : Node) (peers : List Peer) : emitterEvaluation :=
  { peers := peers }

/-- Number of elements in the collection. -/
def emitterEvaluation.Len (n : emitterEvaluation) : Nat :=
  n.peers.length

/-- Swaps the elements with indexes `i` and `j`; indexes outside the slice
(never passed by `sort.Sort`) leave it as it is. -/
def emitterEvaluation.Swap (n : emitterEvaluation) (i j : Nat) : emitterEvaluation :=
  match n.peers[i]?, n.peers[j]? with
  | some a, some b => { peers := (n.peers.set i b).set j a }
  | _, _ => n

/-- Whether the element with index `i` should sort before the element with
index `j`: the placeholder reports `false` for every pair. -/
def emitterEvaluation.Less (_n : emitterEvaluation) (_i _j : Nat) : Bool :=
  false

/-! ## Collaborators -/

/-- What `EmitEvent` calls outside its own file.

* `sortCalls len less` is the sequence of `Swap` calls the library routine
  `sort.Sort` makes on a collection of length `len` whose comparator is `less`
  (the routine touches the data only through `Len`, `Less` and `Swap`, and the
  comparator here does not depend on the data).
* `SignBy e` is the signature `e.SignBy(n.key)` attaches, `none` when it
  returns an error.
* `saveNewEvent s e` is the store after `n.saveNewEvent(e)`. -/
structure Env where
  sortCalls : (len : Nat) → (Nat → Nat → Bool) → List (Fin len × Fin len)
  SignBy : Event → Option Nat
  saveNewEvent : Store → Event → Store

/-- The effect of `sort.Sort(data)`: the library's swap calls, in order. -/
def sortSort (env : Env) (data : emitterEvaluation) : emitterEvaluation :=
  (env.sortCalls data.Len data.Less).foldl (fun d ij => d.Swap ij.1.val ij.2.val) data

/-! ## `AddTransaction` and `EmitEvent` -/

/-- Adds a transaction into the node. -/
def AddTransaction (n : Node) (t : Payload) : Node :=
  { n with emitter := { n.emitter with transactions := n.emitter.transactions ++ [t] } }

/-- The ref nodes selection: snapshot, sort, truncation to
`EventParentsCount - 1`, then the node itself. The truncation `refs[:count]`
panics when `count` is negative. -/
def selectRefs (env : Env) (n : Node) : Except Panic (List Peer) :=
  let refs := (sortSort env (n.emitterEvaluation n.peers)).peers
  let count := wrapInt (n.conf.EventParentsCount - 1)
  if (refs.length : Int) > count then
    if count < 0 then .error .sliceBounds
    else .ok (refs.take count.toNat ++ [n.ID])
  else .ok (refs ++ [n.ID])

/-- The local variables the loop over the refs updates. -/
structure LoopState where
  index : Nat
  parents : Events
  lamportTime : Nat

/-- One iteration of the loop "last events of ref nodes". -/
def loopBody (n : Node) (st : LoopState) (ref : Peer) : LoopState :=
  let h := n.store.GetPeerHeight ref
  if h < 1 then
    if ref = n.ID then
      { st with index := 1, parents := insert ZeroEvent st.parents }
    else st
  else
    let st1 := if ref = n.ID then { st with index := (h + 1) % uint64Size } else st
    match n.store.GetEventHash ref h with
    | none => st1
    | some e =>
      match n.store.GetEvent e with
      | none => st1
      | some event =>
        { st1 with
          parents := insert e st1.parents
          lamportTime :=
            if st1.lamportTime < event.LamportTime then event.LamportTime
            else st1.lamportTime }

/-- The whole loop, from the zero values of the locals. -/
def resolveRefs (n : Node) (refs : List Peer) : LoopState :=
  refs.foldl (loopBody n) { index := 0, parents := ∅, lamportTime := 0 }

/-- The event literal built after the loop, before signing. -/
def newEvent (n : Node) (st : LoopState) (transactions : List Payload) : Event :=
  { Index := st.index
    Creator := n.ID
    Parents := st.parents
    LamportTime := (st.lamportTime + 1) % uint64Size
    ExternalTransactions := transactions
    Sign := none }

/-- Takes all transactions from the buffer, builds the event, connects it with
the parents, signs it and puts it into the storage. Returns the node state
after the call and the emitted event, or the panic. -/
def EmitEvent (env : Env) (n : Node) : Node × Except Panic Event :=
  let transactions := n.emitter.transactions
  let n1 : Node := { n with emitter := { n.emitter with transactions := [] } }
  match selectRefs env n1 with
  | .error p => (n1, .error p)
  | .ok refs =>
    let event := newEvent n1 (resolveRefs n1 refs) transactions
    match env.SignBy event with
    | none => (n1, .error .signing)
    | some sig =>
      let signed : Event := { event with Sign := some sig }
      ({ n1 with store := env.saveNewEvent n1.store signed }, .ok signed)

/-- A call on the node's public surface. -/
inductive Call where
  | AddTransaction (t : Payload)
  | EmitEvent

/-- A sequential run of calls: the final node and the events the `EmitEvent`
calls returned, in order. A panic ends the run. -/
def run (env : Env) (n : Node) : List Call → Node × List Event
  | [] => (n, [])
  | .AddTransaction t :: cs => run env (AddTransaction n t) cs
  | .EmitEvent :: cs =>
    match EmitEvent env n with
    | (n1, .ok e) => ((run env n1 cs).1, e :: (run env n1 cs).2)
    | (n1, .error _) => (n1, [])

/-! ## Reference notions used to state the properties -/

/-- The peers in the order `sort.Sort` leaves them. -/
def sortedPeers (env : Env) (n : Node) : List Peer :=
  (sortSort env (n.emitterEvaluation n.peers)).peers

/-- The selected peers: the first `EventParentsCount - 1` of the sorted ones. -/
def selectedPeers (env : Env) (n : Node) : List Peer :=
  (sortedPeers env n).take (n.conf.EventParentsCount - 1).toNat

/-- The candidates: the selected peers, then the node itself. -/
def candidates (env : Env) (n : Node) : List Peer :=
  selectedPeers env n ++ [n.ID]

/-- A candidate resolves when its recorded height is at least 1 and both the
hash lookup and the event lookup succeed; the result is the hash and the event. -/
def resolveTip (s : Store) (ref : Peer) : Option (EventHash × Event) :=
  if s.GetPeerHeight ref < 1 then none
  else
    match s.GetEventHash ref (s.GetPeerHeight ref) with
    | none => none
    | some e =>
      match s.GetEvent e with
      | none => none
      | some event => some (e, event)

/-- Maximum `LamportTime` over the candidates that resolve (0 when none does). -/
def maxLamport (s : Store) (refs : List Peer) : Nat :=
  ((refs.filterMap (resolveTip s)).map (fun r => r.2.LamportTime)).foldr max 0

/-- What one candidate adds to `Parents`: the genesis marker for the node
itself without a recorded event, the tip hash for a candidate that resolves,
nothing otherwise. -/
def contribution (n : Node) (ref : Peer) : Events :=
  if n.store.GetPeerHeight ref < 1 then
    if ref = n.ID then {ZeroEvent} else ∅
  else
    match resolveTip n.store ref with
    | some r => {r.1}
    | none => ∅

/-- Modelled from the spec: `persist(Event)`, the store write behind
`saveNewEvent` (declared outside this file), recording the event as its
creator's chain tip: height, hash at that height, and body. `hashOf` is the
event hash function. -/
def persistTip (hashOf : Event → EventHash) (s : Store) (e : Event) : Store :=
  { GetPeerHeight := fun p => if p = e.Creator then e.Index else s.GetPeerHeight p
    GetEventHash := fun p h =>
      if p = e.Creator ∧ h = e.Index then some (hashOf e) else s.GetEventHash p h
    GetEvent := fun x => if x = hashOf e then some e else s.GetEvent x }

/-- A store with nothing recorded. -/
def emptyStore : Store :=
  { GetPeerHeight := fun _ => 0
    GetEventHash := fun _ _ => none
    GetEvent := fun _ => none }

/-- The node after the transactions buffer swap: the buffer is `nil`. -/
def drained (n : Node) : Node :=
  { n with emitter := { n.emitter with transactions := [] } }

/-- The event `EmitEvent` builds before signing, when the selection does not
panic. -/
def builtEvent (env : Env) (n : Node) : Event :=
  newEvent n (resolveRefs n (candidates env n)) n.emitter.transactions

/-- The built event with the signature attached. -/
def signedEvent (env : Env) (n : Node) (sig : Nat) : Event :=
  { builtEvent env n with Sign := some sig }

/-- A library sort that makes no swap call. -/
def noSwaps (len : Nat) (_less : Nat → Nat → Bool) : List (Fin len × Fin len) := []

/-- The payloads of the `AddTransaction` calls, in call order. -/
def submitted : List Call → List Payload
  | [] => []
  | .AddTransaction t :: cs => t :: submitted cs
  | .EmitEvent :: cs => submitted cs

/-- Number of `EmitEvent` calls. -/
def emitCount : List Call → Nat
  | [] => 0
  | .AddTransaction _ :: cs => emitCount cs
  | .EmitEvent :: cs => emitCount cs + 1

/-- The batch each `EmitEvent` call of a run drains, in call order, starting
from the buffer content `buf`. -/
def batches (buf : List Payload) : List Call → List (List Payload)
  | [] => []
  | .AddTransaction t :: cs => batches (buf ++ [t]) cs
  | .EmitEvent :: cs => buf :: batches [] cs

/-- The buffer content after a run of calls that starts from `buf`. -/
def pending (buf : List Payload) : List Call → List Payload
  | [] => buf
  | .AddTransaction t :: cs => pending (buf ++ [t]) cs
  | .EmitEvent :: cs => pending [] cs

/-! ## The emission scheduler: `StartEventEmission`, `StopEventEmission` and the loop -/

/-- Where a background loop (the goroutine of `StartEventEmission`) stands.

* `selecting`: at the top of the `for`, about to enter the `select`;
* `blocked done`: waiting in the `select`; `done` is the value of
  `n.emitter.done` read when the `select` was entered;
* `emitting`: inside `n.EmitEvent()`;
* `returned`: left through `return`;
* `panicked`: `n.EmitEvent()` panicked. -/
inductive LoopPC where
  | selecting
  | blocked (done : Option Nat)
  | emitting
  | returned
  | panicked
deriving DecidableEq

/-- One background loop: its position, and whether a tick waits in its
`ticker.C`. -/
structure Loop where
  pc : LoopPC
  tick : Bool
deriving DecidableEq

/-- The node together with the run-time state its scheduler methods act on:
the channels closed so far, the number of channels made so far (the identity
of the next one), the background loops spawned so far, and the number of
`EmitEvent` calls the loops have made. -/
structure World where
  node : Node
  closed : List Nat
  made : Nat
  loops : List Loop
  emitCalls : Nat

/-- The state of the scheduler: Running when `n.emitter.done` is not nil. -/
inductive SchedState where
  | Stopped
  | Running
deriving DecidableEq

/-- Reads the scheduler state off the `done` field. -/
def schedState (w : World) : SchedState :=
  match w.node.emitter.done with
  | none => .Stopped
  | some _ => .Running

/-- Starts event emission: nothing when `done` is not nil; otherwise a new
channel is stored in `done` and a loop is spawned. -/
def StartEventEmission (w : World) : World :=
  match w.node.emitter.done with
  | some _ => w
  | none =>
    { w with
      node := { w.node with emitter := { w.node.emitter with done := some w.made } }
      made := w.made + 1
      loops := w.loops ++ [{ pc := .selecting, tick := false }] }

/-- Stops event emission: `close(n.emitter.done)`, then `n.emitter.done = nil`.
Closing the nil channel panics, and so does closing a closed channel. -/
def StopEventEmission (w : World) : World × Except Panic Unit :=
  match w.node.emitter.done with
  | none => (w, .error .closeOfNilChannel)
  | some c =>
    if c ∈ w.closed then (w, .error .closeOfClosedChannel)
    else
      ({ w with
          closed := c :: w.closed
          node := { w.node with emitter := { w.node.emitter with done := none } } },
        .ok ())

/-- Whether the `done` case of a blocked `select` can proceed: the channel read
at entry is not nil and has been closed. -/
def doneReady (w : World) (done : Option Nat) : Bool :=
  match done with
  | none => false
  | some c => decide (c ∈ w.closed)

/-- The loop takes the `ticker.C` case: the tick is consumed and
`n.EmitEvent()` is called. -/
def enterEmit (env : Env) (w : World) (i : Nat) : World :=
  match (EmitEvent env w.node).2 with
  | .ok _ =>
    { w with
      node := (EmitEvent env w.node).1
      loops := w.loops.set i { pc := .emitting, tick := false }
      emitCalls := w.emitCalls + 1 }
  | .error _ =>
    { w with
      node := (EmitEvent env w.node).1
      loops := w.loops.set i { pc := .panicked, tick := false }
      emitCalls := w.emitCalls + 1 }

/-- One step of loop `i`. When both cases of the `select` can proceed, Go
chooses one at random: `preferTick` is that choice. -/
def loopStep (env : Env) (w : World) (i : Nat) (preferTick : Bool) : World :=
  match w.loops[i]? with
  | none => w
  | some l =>
    match l.pc with
    | .selecting => { w with loops := w.loops.set i { l with pc := .blocked w.node.emitter.done } }
    | .blocked done =>
      if l.tick && doneReady w done then
        if preferTick then enterEmit env w i
        else { w with loops := w.loops.set i { l with pc := .returned } }
      else if l.tick then enterEmit env w i
      else if doneReady w done then
        { w with loops := w.loops.set i { l with pc := .returned } }
      else w
    | .emitting => { w with loops := w.loops.set i { l with pc := .selecting } }
    | .returned => w
    | .panicked => w

/-- What can happen next: the owner calls start or stop, the ticker of loop
`i` delivers a tick, or loop `i` takes a step. -/
inductive Action where
  | start
  | stop
  | tick (i : Nat)
  | loop (i : Nat) (preferTick : Bool)
deriving DecidableEq

/-- The world after one action. -/
def act (env : Env) (w : World) : Action → World
  | .start => StartEventEmission w
  | .stop => (StopEventEmission w).1
  | .tick i =>
    match w.loops[i]? with
    | none => w
    | some l => { w with loops := w.loops.set i { l with tick := true } }
  | .loop i preferTick => loopStep env w i preferTick

/-- The world after a sequence of actions (one interleaving). -/
def actAll (env : Env) (w : World) (as : List Action) : World :=
  as.foldl (act env) w

/-- A node that was never started, with no channel made and no loop spawned. -/
def freshWorld (n : Node) : World :=
  { node := n, closed := [], made := 0, loops := [], emitCalls := 0 }

/-- The `done` channel of a running emitter is open, and every channel in use
has been made. -/
def WorldOk (w : World) : Prop :=
  (∀ c ∈ w.closed, c < w.made) ∧
  ∀ c, w.node.emitter.done = some c → c < w.made ∧ c ∉ w.closed

/-- A sample event hash function. -/
def sampleHash (e : Event) : EventHash :=
  e.Creator * 1000 + e.Index + 1

/-- A sample environment: no swap, signing succeeds, events are persisted as
chain tips. -/
def sampleEnv : Env :=
  { sortCalls := noSwaps
    SignBy := fun e => some (sampleHash e)
    saveNewEvent := persistTip sampleHash }

/-- A sample environment whose signer fails. -/
def failingEnv : Env :=
  { sortCalls := noSwaps
    SignBy := fun _ => none
    saveNewEvent := persistTip sampleHash }

/-- A configuration with the given small fan-in. -/
def confOf (k : Fin 100) : Config :=
  { EventParentsCount := (k.val : Int)
    inRange := by constructor <;> omega }

/-- An event whose `LamportTime` is the largest `uint64`. -/
def lateEvent : Event :=
  { Index := 1, Creator := 1, Parents := {ZeroEvent}, LamportTime := 18446744073709551615
    ExternalTransactions := [], Sign := some 0 }

/-- Node 1 with fan-in 1 and no peers, whose own tip (height 1, hash 7) is
`lateEvent`. -/
def nodeLateClock : Node :=
  { ID := 1
    conf := confOf 1
    store :=
      { GetPeerHeight := fun p => if p = 1 then 1 else 0
        GetEventHash := fun p h => if p = 1 ∧ h = 1 then some 7 else none
        GetEvent := fun x => if x = 7 then some lateEvent else none }
    peers := []
    emitter := { transactions := [], done := none } }

/-- An event of peer 2 with `LamportTime` 4. -/
def peerEvent : Event :=
  { Index := 3, Creator := 2, Parents := {ZeroEvent}, LamportTime := 4
    ExternalTransactions := [], Sign := some 0 }

/-- Node 1 with fan-in 3, peers 2 and 3 and no own event; peer 2 has a tip
(height 3, hash 9) that resolves to `peerEvent`, peer 3 has nothing recorded.
One payload is buffered. -/
def nodeFresh : Node :=
  { ID := 1
    conf := confOf 3
    store :=
      { GetPeerHeight := fun p => if p = 2 then 3 else 0
        GetEventHash := fun p h => if p = 2 ∧ h = 3 then some 9 else none
        GetEvent := fun x => if x = 9 then some peerEvent else none }
    peers := [2, 3]
    emitter := { transactions := [[116, 120, 49]], done := none } }

/-- Node 1 with fan-in 2 and no peers, whose own recorded height is the
largest `uint64`; no hash is recorded. -/
def nodeLastHeight : Node :=
  { ID := 1
    conf := confOf 2
    store :=
      { GetPeerHeight := fun p => if p = 1 then 18446744073709551615 else 0
        GetEventHash := fun _ _ => none
        GetEvent := fun _ => none }
    peers := []
    emitter := { transactions := [], done := none } }

/-- Node 1 with fan-in 2 and no peers: own height 1, hash 7 recorded for
(1, 1), but no event stored for hash 7. -/
def nodeLostBody : Node :=
  { ID := 1
    conf := confOf 2
    store :=
      { GetPeerHeight := fun p => if p = 1 then 1 else 0
        GetEventHash := fun p h => if p = 1 ∧ h = 1 then some 7 else none
        GetEvent := fun _ => none }
    peers := []
    emitter := { transactions := [], done := none } }

/-- The node of the scenario: fan-in 3, no peers known, empty store, empty
buffer. -/
def scenarioNode (id : Peer) : Node :=
  { ID := id
    conf := confOf 3
    store := emptyStore
    peers := []
    emitter := { transactions := [], done := none } }

/-- The payload `"tx1"`. -/
def tx1 : Payload := [116, 120, 49]

/-- The payload `"tx2"`. -/
def tx2 : Payload := [116, 120, 50]

/-- A run with two submissions, each followed by an emission. -/
def sampleCalls : List Call :=
  [.AddTransaction tx1, .EmitEvent, .AddTransaction tx2, .EmitEvent]

/-- Node 1 with fan-in 1, no peers and nothing recorded. -/
def nodeAlone : Node :=
  { ID := 1
    conf := confOf 1
    store := emptyStore
    peers := []
    emitter := { transactions := [], done := none } }

/-- Node 1 with fan-in 1, no peers and no own event, whose store holds an
event (`peerEvent`, `LamportTime` 4) under the zero hash. -/
def nodeGenesisBody : Node :=
  { ID := 1
    conf := confOf 1
    store :=
      { GetPeerHeight := fun _ => 0
        GetEventHash := fun _ _ => none
        GetEvent := fun x => if x = ZeroEvent then some peerEvent else none }
    peers := []
    emitter := { transactions := [], done := none } }

/-- An interleaving that ends with the loop inside `n.EmitEvent()`: start, the
loop enters its `select`, a tick arrives, the loop takes it. -/
def untilInsideEmit : List Action :=
  [.start, .loop 0 true, .tick 0, .loop 0 true]

/-- What the loop does next: `EmitEvent` returns, the loop enters its `select`
again, a tick arrives, the loop takes it. -/
def nextRound : List Action :=
  [.loop 0 true, .loop 0 true, .tick 0, .loop 0 true]

/-- An interleaving that ends with the loop waiting in its `select` and a tick
pending: start, the loop enters its `select`, a tick arrives. -/
def untilTickPending : List Action :=
  [.start, .loop 0 true, .tick 0]

/-- Node 1 whose `EventParentsCount` is the smallest `int`, with peers 2 and 3
and one buffered payload. -/
def nodeMinInt : Node :=
  { ID := 1
    conf := { EventParentsCount := -9223372036854775808, inRange := by decide }
    store := emptyStore
    peers := [2, 3]
    emitter := { transactions := [tx1], done := none } }

/-- Node 1 with `EventParentsCount` 0, no peers and one buffered payload. -/
def nodeZeroK : Node :=
  { ID := 1
    conf := confOf 0
    store := emptyStore
    peers := []
    emitter := { transactions := [tx1], done := none } }

/-- Node 1 with fan-in 2 and peers 2 and 3, every one with a tip that
resolves: hash 7 for node 1, 8 for peer 2, 9 for peer 3, each at height 1. -/
def nodeCrowded : Node :=
  { ID := 1
    conf := confOf 2
    store :=
      { GetPeerHeight := fun p => if p = 1 ∨ p = 2 ∨ p = 3 then 1 else 0
        GetEventHash := fun p h =>
          if p = 1 ∧ h = 1 then some 7
          else if p = 2 ∧ h = 1 then some 8
          else if p = 3 ∧ h = 1 then some 9
          else none
        GetEvent := fun x => if x = 7 ∨ x = 8 ∨ x = 9 then some peerEvent else none }
    peers := [2, 3]
    emitter := { transactions := [], done := none } }

/-! ## Lemmas on the selection -/

theorem wrapInt_of_inRange (i : Int) (h1 : -9223372036854775808 ≤ i)
    (h2 : i < 9223372036854775808) : wrapInt i = i := by
  unfold wrapInt
  omega

theorem Swap_length (d : emitterEvaluation) (i j : Nat) :
    (d.Swap i j).peers.length = d.peers.length := by
  unfold emitterEvaluation.Swap
  split <;> simp

theorem foldl_Swap_length {len : Nat} (calls : List (Fin len × Fin len))
    (d : emitterEvaluation) :
    (calls.foldl (fun d ij => d.Swap ij.1.val ij.2.val) d).peers.length = d.peers.length := by
  induction calls generalizing d with
  | nil => rfl
  | cons c cs ih => rw [List.foldl_cons, ih, Swap_length]

theorem sortedPeers_length (env : Env) (n : Node) :
    (sortedPeers env n).length = n.peers.length := by
  unfold sortedPeers sortSort
  rw [foldl_Swap_length]
  rfl

theorem selectRefs_of_pos (env : Env) (n : Node) (hK : 1 ≤ n.conf.EventParentsCount) :
    selectRefs env n = .ok (candidates env n) := by
  have hr := n.conf.inRange
  have hw : wrapInt (n.conf.EventParentsCount - 1) = n.conf.EventParentsCount - 1 :=
    wrapInt_of_inRange _ (by omega) (by omega)
  unfold selectRefs candidates selectedPeers sortedPeers
  simp only [hw]
  split
  · rw [if_neg (by omega)]
  · rename_i hlen
    rw [List.take_of_length_le (by omega)]

theorem selectedPeers_length_le (env : Env) (n : Node) (hK : 1 ≤ n.conf.EventParentsCount) :
    ((selectedPeers env n).length : Int) ≤ n.conf.EventParentsCount - 1 := by
  unfold selectedPeers
  rw [List.length_take]
  omega

/-! ## Lemmas on the loop -/

theorem loopBody_lamportTime (n : Node) (st : LoopState) (ref : Peer) :
    (loopBody n st ref).lamportTime
      = max st.lamportTime (maxLamport n.store [ref]) := by
  unfold loopBody maxLamport resolveTip
  by_cases h : n.store.GetPeerHeight ref = 0
  · by_cases hid : ref = n.ID
    · subst hid; simp [h]
    · simp [h, hid]
  · cases he : n.store.GetEventHash ref (n.store.GetPeerHeight ref) with
    | none =>
      by_cases hid : ref = n.ID
      · subst hid; simp [h, he]
      · simp [h, hid, he]
    | some e =>
      cases hev : n.store.GetEvent e with
      | none =>
        by_cases hid : ref = n.ID
        · subst hid; simp [h, he, hev]
        · simp [h, hid, he, hev]
      | some event =>
        by_cases hid : ref = n.ID
        · subst hid; simp [h, he, hev]; split <;> omega
        · simp [h, hid, he, hev]; split <;> omega

theorem maxLamport_cons (s : Store) (ref : Peer) (refs : List Peer) :
    maxLamport s (ref :: refs) = max (maxLamport s [ref]) (maxLamport s refs) := by
  unfold maxLamport
  cases h : resolveTip s ref <;> simp [List.filterMap_cons, h]

theorem foldl_loopBody_lamportTime (n : Node) (refs : List Peer) (st : LoopState) :
    (refs.foldl (loopBody n) st).lamportTime
      = max st.lamportTime (maxLamport n.store refs) := by
  induction refs generalizing st with
  | nil => simp [maxLamport]
  | cons r rs ih =>
    rw [List.foldl_cons, ih, loopBody_lamportTime, maxLamport_cons n.store r rs, max_assoc]

theorem loopBody_parents (n : Node) (st : LoopState) (ref : Peer) :
    (loopBody n st ref).parents = st.parents ∪ contribution n ref := by
  unfold loopBody contribution resolveTip
  by_cases h : n.store.GetPeerHeight ref = 0
  · by_cases hid : ref = n.ID
    · subst hid; simp [h, Finset.insert_eq, Finset.union_comm]
    · simp [h, hid]
  · cases he : n.store.GetEventHash ref (n.store.GetPeerHeight ref) with
    | none =>
      by_cases hid : ref = n.ID
      · subst hid; simp [h, he]
      · simp [h, hid, he]
    | some e =>
      cases hev : n.store.GetEvent e with
      | none =>
        by_cases hid : ref = n.ID
        · subst hid; simp [h, he, hev]
        · simp [h, hid, he, hev]
      | some event =>
        by_cases hid : ref = n.ID
        · subst hid; simp [h, he, hev, Finset.insert_eq, Finset.union_comm]
        · simp [h, hid, he, hev, Finset.insert_eq, Finset.union_comm]

theorem mem_foldl_loopBody_parents (n : Node) (refs : List Peer) (st : LoopState)
    (x : EventHash) :
    x ∈ (refs.foldl (loopBody n) st).parents
      ↔ x ∈ st.parents ∨ ∃ ref ∈ refs, x ∈ contribution n ref := by
  induction refs generalizing st with
  | nil => simp
  | cons r rs ih =>
    rw [List.foldl_cons, ih, loopBody_parents, Finset.mem_union]
    simp only [List.mem_cons, exists_eq_or_imp]
    tauto

theorem mem_resolveRefs_parents (n : Node) (refs : List Peer) (x : EventHash) :
    x ∈ (resolveRefs n refs).parents ↔ ∃ ref ∈ refs, x ∈ contribution n ref := by
  unfold resolveRefs
  rw [mem_foldl_loopBody_parents]
  simp

theorem contribution_card_le (n : Node) (ref : Peer) : (contribution n ref).card ≤ 1 := by
  unfold contribution
  split
  · split <;> simp
  · split <;> simp

theorem foldl_loopBody_card_le (n : Node) (refs : List Peer) (st : LoopState) :
    (refs.foldl (loopBody n) st).parents.card ≤ st.parents.card + refs.length := by
  induction refs generalizing st with
  | nil => simp
  | cons r rs ih =>
    rw [List.foldl_cons]
    refine (ih _).trans ?_
    rw [loopBody_parents, List.length_cons]
    have h1 := Finset.card_union_le st.parents (contribution n r)
    have h2 := contribution_card_le n r
    omega

theorem resolveRefs_card_le (n : Node) (refs : List Peer) :
    (resolveRefs n refs).parents.card ≤ refs.length := by
  unfold resolveRefs
  simpa using foldl_loopBody_card_le n refs { index := 0, parents := ∅, lamportTime := 0 }

theorem loopBody_index_self (n : Node) (st : LoopState) :
    (loopBody n st n.ID).index
      = if n.store.GetPeerHeight n.ID < 1 then 1
        else (n.store.GetPeerHeight n.ID + 1) % uint64Size := by
  unfold loopBody
  by_cases h : n.store.GetPeerHeight n.ID = 0
  · simp [h]
  · cases he : n.store.GetEventHash n.ID (n.store.GetPeerHeight n.ID) with
    | none => simp [h, he]
    | some e =>
      cases hev : n.store.GetEvent e with
      | none => simp [h, he, hev]
      | some event => simp [h, he, hev]

theorem resolveRefs_index (n : Node) (refs : List Peer) :
    (resolveRefs n (refs ++ [n.ID])).index
      = if n.store.GetPeerHeight n.ID < 1 then 1
        else (n.store.GetPeerHeight n.ID + 1) % uint64Size := by
  unfold resolveRefs
  rw [List.foldl_append, List.foldl_cons, List.foldl_nil, loopBody_index_self]

theorem resolveRefs_lamportTime (n : Node) (refs : List Peer) :
    (resolveRefs n refs).lamportTime = maxLamport n.store refs := by
  unfold resolveRefs
  rw [foldl_loopBody_lamportTime]
  simp

/-! ## Lemmas on `EmitEvent` -/

theorem EmitEvent_of_pos (env : Env) (n : Node) (hK : 1 ≤ n.conf.EventParentsCount) :
    EmitEvent env n =
      match env.SignBy (builtEvent env n) with
      | none => (drained n, .error .signing)
      | some sig =>
        ({ drained n with store := env.saveNewEvent n.store (signedEvent env n sig) },
          .ok (signedEvent env n sig)) := by
  have hsel : selectRefs env (drained n) = .ok (candidates env n) :=
    selectRefs_of_pos env (drained n) hK
  unfold EmitEvent
  unfold drained at hsel
  simp only [hsel]
  rfl

theorem EmitEvent_returns (env : Env) (n : Node) (hK : 1 ≤ n.conf.EventParentsCount)
    (hsign : ∀ e, (env.SignBy e).isSome) :
    ∃ sig, EmitEvent env n =
      ({ drained n with store := env.saveNewEvent n.store (signedEvent env n sig) },
        .ok (signedEvent env n sig)) := by
  rw [EmitEvent_of_pos env n hK]
  have h := hsign (builtEvent env n)
  cases hs : env.SignBy (builtEvent env n) with
  | none => rw [hs] at h; cases h
  | some sig => exact ⟨sig, rfl⟩

theorem builtEvent_Index (env : Env) (n : Node) :
    (builtEvent env n).Index
      = if n.store.GetPeerHeight n.ID < 1 then 1
        else (n.store.GetPeerHeight n.ID + 1) % uint64Size := by
  unfold builtEvent newEvent candidates
  exact resolveRefs_index n _

theorem builtEvent_LamportTime (env : Env) (n : Node) :
    (builtEvent env n).LamportTime
      = (maxLamport n.store (candidates env n) + 1) % uint64Size := by
  unfold builtEvent newEvent
  simp only [resolveRefs_lamportTime]

theorem mem_builtEvent_Parents (env : Env) (n : Node) (x : EventHash) :
    x ∈ (builtEvent env n).Parents ↔ ∃ ref ∈ candidates env n, x ∈ contribution n ref := by
  unfold builtEvent newEvent
  exact mem_resolveRefs_parents n _ x

theorem maxLamport_eq_zero (s : Store) (refs : List Peer)
    (h : ∀ c ∈ refs, resolveTip s c = none) : maxLamport s refs = 0 := by
  induction refs with
  | nil => rfl
  | cons r rs ih =>
    rw [maxLamport_cons, ih (fun c hc => h c (List.mem_cons_of_mem _ hc))]
    have hr := h r (List.mem_cons_self _ _)
    simp [maxLamport, hr]

theorem mem_contribution (n : Node) (ref : Peer) (x : EventHash) :
    x ∈ contribution n ref ↔
      (n.store.GetPeerHeight ref < 1 ∧ ref = n.ID ∧ x = ZeroEvent) ∨
      (1 ≤ n.store.GetPeerHeight ref ∧
        n.store.GetEventHash ref (n.store.GetPeerHeight ref) = some x ∧
        (n.store.GetEvent x).isSome) := by
  unfold contribution resolveTip
  by_cases h : n.store.GetPeerHeight ref < 1
  · have h1 : ¬ 1 ≤ n.store.GetPeerHeight ref := by omega
    rw [if_pos h]
    by_cases hid : ref = n.ID
    · rw [if_pos hid]
      have h0 : n.store.GetPeerHeight n.ID = 0 := by subst hid; omega
      simp [h0, hid]
    · rw [if_neg hid]
      simp [h1, hid]
  · have h1 : 1 ≤ n.store.GetPeerHeight ref := by omega
    rw [if_neg h, if_neg h]
    cases he : n.store.GetEventHash ref (n.store.GetPeerHeight ref) with
    | none => simp [h]
    | some e =>
      cases hev : n.store.GetEvent e with
      | none =>
        simp only [hev, h, h1, Finset.not_mem_empty, Option.some.injEq, false_iff, not_and,
          false_and, false_or, true_and, not_or, not_false_eq_true]
        intro hx
        subst hx
        simp [hev]
      | some event =>
        simp only [hev, h, h1, Finset.mem_singleton, Option.some.injEq, false_and, false_or,
          true_and]
        constructor
        · intro hx
          subst hx
          simp [hev]
        · intro hx
          exact hx.1.symm

theorem self_mem_candidates (env : Env) (n : Node) : n.ID ∈ candidates env n := by
  unfold candidates
  simp

/-! ## The claims on a single `EmitEvent` -/

/-- C2, counterexample: a node whose only resolved parent has the largest
`uint64` as `LamportTime` emits an event with `LamportTime` 0, not 1 plus that
maximum. -/
theorem C2_counterexample :
    ∃ e, (EmitEvent sampleEnv nodeLateClock).2 = .ok e ∧
      maxLamport nodeLateClock.store (candidates sampleEnv nodeLateClock)
        = 18446744073709551615 ∧
      e.LamportTime = 0 ∧
      e.LamportTime
        ≠ 1 + maxLamport nodeLateClock.store (candidates sampleEnv nodeLateClock) :=
  ⟨_, rfl, by decide, by decide, by decide⟩

/-- C2, as amended: with fan-in at least 1 and a signer that succeeds,
`EmitEvent` returns an event whose `LamportTime` is 1 plus the maximum
`LamportTime` over the resolved candidates, reduced modulo `2 ^ 64`; it is
exactly 1 plus that maximum whenever the maximum is below `2 ^ 64 - 1`, and it
is 1 when no candidate resolves. -/
theorem C2_lamportTime (env : Env) (n : Node) (hK : 1 ≤ n.conf.EventParentsCount)
    (hsign : ∀ e, (env.SignBy e).isSome) :
    ∃ e, (EmitEvent env n).2 = .ok e ∧
      e.LamportTime = (1 + maxLamport n.store (candidates env n)) % uint64Size ∧
      (maxLamport n.store (candidates env n) < uint64Size - 1 →
        e.LamportTime = 1 + maxLamport n.store (candidates env n)) ∧
      ((∀ c ∈ candidates env n, resolveTip n.store c = none) → e.LamportTime = 1) := by
  obtain ⟨sig, hsig⟩ := EmitEvent_returns env n hK hsign
  refine ⟨signedEvent env n sig, by rw [hsig], ?_, ?_, ?_⟩
  · show (builtEvent env n).LamportTime = _
    rw [builtEvent_LamportTime, Nat.add_comm]
  · intro hlt
    show (builtEvent env n).LamportTime = _
    rw [builtEvent_LamportTime, Nat.add_comm]
    apply Nat.mod_eq_of_lt
    unfold uint64Size at *
    omega
  · intro hnone
    show (builtEvent env n).LamportTime = _
    rw [builtEvent_LamportTime, maxLamport_eq_zero _ _ hnone]
    rfl

/-- C2, witness: the amended statement at `nodeFresh`. -/
theorem C2_lamportTime_witness :
    1 ≤ nodeFresh.conf.EventParentsCount ∧ (∀ e, (sampleEnv.SignBy e).isSome) ∧
    ∃ e, (EmitEvent sampleEnv nodeFresh).2 = .ok e ∧
      e.LamportTime
        = (1 + maxLamport nodeFresh.store (candidates sampleEnv nodeFresh)) % uint64Size ∧
      (maxLamport nodeFresh.store (candidates sampleEnv nodeFresh) < uint64Size - 1 →
        e.LamportTime = 1 + maxLamport nodeFresh.store (candidates sampleEnv nodeFresh)) ∧
      ((∀ c ∈ candidates sampleEnv nodeFresh, resolveTip nodeFresh.store c = none) →
        e.LamportTime = 1) :=
  ⟨by decide, fun _ => rfl, C2_lamportTime sampleEnv nodeFresh (by decide) (fun _ => rfl)⟩

/-- C3: when the node's own recorded height is below 1, then (with fan-in at
least 1 and a signer that succeeds) `EmitEvent` returns an event with
`Index = 1` whose `Parents` contain `ZeroEvent`, whatever the peer snapshot and
the records of other peers. -/
theorem C3_first_event (env : Env) (n : Node) (hK : 1 ≤ n.conf.EventParentsCount)
    (hsign : ∀ e, (env.SignBy e).isSome) (h0 : n.store.GetPeerHeight n.ID < 1) :
    ∃ e, (EmitEvent env n).2 = .ok e ∧ e.Index = 1 ∧ ZeroEvent ∈ e.Parents := by
  obtain ⟨sig, hsig⟩ := EmitEvent_returns env n hK hsign
  refine ⟨signedEvent env n sig, by rw [hsig], ?_, ?_⟩
  · show (builtEvent env n).Index = 1
    rw [builtEvent_Index, if_pos h0]
  · show ZeroEvent ∈ (builtEvent env n).Parents
    rw [mem_builtEvent_Parents]
    exact ⟨n.ID, self_mem_candidates env n, (mem_contribution n n.ID ZeroEvent).2
      (Or.inl ⟨h0, rfl, rfl⟩)⟩

/-- C3, witness: `nodeFresh` has peers with and without records and no own
event. -/
theorem C3_first_event_witness :
    1 ≤ nodeFresh.conf.EventParentsCount ∧ (∀ e, (sampleEnv.SignBy e).isSome) ∧
    nodeFresh.store.GetPeerHeight nodeFresh.ID < 1 ∧
    ∃ e, (EmitEvent sampleEnv nodeFresh).2 = .ok e ∧ e.Index = 1 ∧ ZeroEvent ∈ e.Parents :=
  ⟨by decide, fun _ => rfl, by decide,
    C3_first_event sampleEnv nodeFresh (by decide) (fun _ => rfl) (by decide)⟩

/-- C4, counterexample: with own recorded height `2 ^ 64 - 1` the emitted
event has `Index` 0, not the height plus 1. -/
theorem C4_counterexample :
    ∃ e, (EmitEvent sampleEnv nodeLastHeight).2 = .ok e ∧
      1 ≤ nodeLastHeight.store.GetPeerHeight nodeLastHeight.ID ∧
      e.Index = 0 ∧
      e.Index ≠ nodeLastHeight.store.GetPeerHeight nodeLastHeight.ID + 1 :=
  ⟨_, rfl, by decide, by decide, by decide⟩

/-- C4, as amended: when the node's own recorded height is `H ≥ 1`, the event
`EmitEvent` returns has `Creator` equal to the node's ID and `Index` equal to
`H + 1` reduced modulo `2 ^ 64`, hence `H + 1` whenever `H < 2 ^ 64 - 1`;
neither the store lookups for the own tip nor the peer snapshot matter. -/
theorem C4_index_creator (env : Env) (n : Node) (hK : 1 ≤ n.conf.EventParentsCount)
    (hsign : ∀ e, (env.SignBy e).isSome) (hH : 1 ≤ n.store.GetPeerHeight n.ID) :
    ∃ e, (EmitEvent env n).2 = .ok e ∧
      e.Index = (n.store.GetPeerHeight n.ID + 1) % uint64Size ∧
      e.Creator = n.ID ∧
      (n.store.GetPeerHeight n.ID < uint64Size - 1 →
        e.Index = n.store.GetPeerHeight n.ID + 1) := by
  obtain ⟨sig, hsig⟩ := EmitEvent_returns env n hK hsign
  have hidx : (builtEvent env n).Index = (n.store.GetPeerHeight n.ID + 1) % uint64Size := by
    rw [builtEvent_Index, if_neg (by omega)]
  refine ⟨signedEvent env n sig, by rw [hsig], hidx, rfl, ?_⟩
  intro hlt
  show (builtEvent env n).Index = _
  rw [hidx]
  apply Nat.mod_eq_of_lt
  unfold uint64Size at *
  omega

/-- C4, witness: `nodeLostBody` has own height 1 and a failing own lookup. -/
theorem C4_index_creator_witness :
    1 ≤ nodeLostBody.conf.EventParentsCount ∧ (∀ e, (sampleEnv.SignBy e).isSome) ∧
    1 ≤ nodeLostBody.store.GetPeerHeight nodeLostBody.ID ∧
    ∃ e, (EmitEvent sampleEnv nodeLostBody).2 = .ok e ∧
      e.Index = (nodeLostBody.store.GetPeerHeight nodeLostBody.ID + 1) % uint64Size ∧
      e.Creator = nodeLostBody.ID ∧
      (nodeLostBody.store.GetPeerHeight nodeLostBody.ID < uint64Size - 1 →
        e.Index = nodeLostBody.store.GetPeerHeight nodeLostBody.ID + 1) :=
  ⟨by decide, fun _ => rfl, by decide,
    C4_index_creator sampleEnv nodeLostBody (by decide) (fun _ => rfl) (by decide)⟩

/-- C5, counterexample: own height 1 with hash 7 recorded for it but no event
stored under hash 7: the emitted event's `Parents` do not contain 7. -/
theorem C5_counterexample :
    ∃ e, (EmitEvent sampleEnv nodeLostBody).2 = .ok e ∧
      1 ≤ nodeLostBody.store.GetPeerHeight nodeLostBody.ID ∧
      nodeLostBody.store.GetEventHash nodeLostBody.ID
        (nodeLostBody.store.GetPeerHeight nodeLostBody.ID) = some 7 ∧
      7 ∉ e.Parents :=
  ⟨_, rfl, by decide, by decide, by decide⟩

/-- C5, as amended: when the node's own recorded height is `H ≥ 1` and the
store records the hash `x` for (node ID, `H`), the `Parents` of the event
`EmitEvent` returns contain `x` exactly when the store also holds an event for
`x`; a failed event lookup leaves the own previous event out. -/
theorem C5_own_parent (env : Env) (n : Node) (hK : 1 ≤ n.conf.EventParentsCount)
    (hsign : ∀ e, (env.SignBy e).isSome) (hH : 1 ≤ n.store.GetPeerHeight n.ID)
    (x : EventHash)
    (hx : n.store.GetEventHash n.ID (n.store.GetPeerHeight n.ID) = some x) :
    ∃ e, (EmitEvent env n).2 = .ok e ∧ (x ∈ e.Parents ↔ (n.store.GetEvent x).isSome) := by
  obtain ⟨sig, hsig⟩ := EmitEvent_returns env n hK hsign
  refine ⟨signedEvent env n sig, by rw [hsig], ?_⟩
  show x ∈ (builtEvent env n).Parents ↔ _
  rw [mem_builtEvent_Parents]
  constructor
  · rintro ⟨ref, -, hmem⟩
    rcases (mem_contribution n ref x).1 hmem with ⟨hlt, hid, -⟩ | ⟨-, -, hev⟩
    · subst hid
      omega
    · exact hev
  · intro hev
    exact ⟨n.ID, self_mem_candidates env n, (mem_contribution n n.ID x).2
      (Or.inr ⟨hH, hx, hev⟩)⟩

/-- C5, witness: `nodeLateClock` has own height 1, hash 7 and a stored event. -/
theorem C5_own_parent_witness :
    1 ≤ nodeLateClock.conf.EventParentsCount ∧ (∀ e, (sampleEnv.SignBy e).isSome) ∧
    1 ≤ nodeLateClock.store.GetPeerHeight nodeLateClock.ID ∧
    nodeLateClock.store.GetEventHash nodeLateClock.ID
      (nodeLateClock.store.GetPeerHeight nodeLateClock.ID) = some 7 ∧
    ∃ e, (EmitEvent sampleEnv nodeLateClock).2 = .ok e ∧
      (7 ∈ e.Parents ↔ (nodeLateClock.store.GetEvent 7).isSome) :=
  ⟨by decide, fun _ => rfl, by decide, by decide,
    C5_own_parent sampleEnv nodeLateClock (by decide) (fun _ => rfl) (by decide) 7
      (by decide)⟩

/-- C7, counterexample: with a failing signer, `EmitEvent` on a node whose
buffer holds one payload panics and leaves the buffer empty: the payload is
no longer held. -/
theorem C7_counterexample :
    nodeFresh.emitter.transactions = [[116, 120, 49]] ∧
    (EmitEvent failingEnv nodeFresh).2 = .error .signing ∧
    (EmitEvent failingEnv nodeFresh).1.emitter.transactions = [] ∧
    ([116, 120, 49] : Payload) ∉ (EmitEvent failingEnv nodeFresh).1.emitter.transactions :=
  ⟨by decide, rfl, by decide, by decide⟩

/-- C7, as amended: when signing fails during `EmitEvent` (fan-in at least 1),
the call panics with the signing failure, the store is not written, and the
node is left with an empty buffer: the drained transactions are not put
back. -/
theorem C7_sign_failure (env : Env) (n : Node) (hK : 1 ≤ n.conf.EventParentsCount)
    (hfail : env.SignBy (builtEvent env n) = none) :
    (EmitEvent env n).2 = .error .signing ∧
    (EmitEvent env n).1.emitter.transactions = [] ∧
    (EmitEvent env n).1.store.GetPeerHeight = n.store.GetPeerHeight ∧
    (EmitEvent env n).1.store.GetEventHash = n.store.GetEventHash ∧
    (EmitEvent env n).1.store.GetEvent = n.store.GetEvent := by
  rw [EmitEvent_of_pos env n hK, hfail]
  exact ⟨rfl, rfl, rfl, rfl, rfl⟩

/-- C7, witness: `nodeFresh` with the failing signer. -/
theorem C7_sign_failure_witness :
    1 ≤ nodeFresh.conf.EventParentsCount ∧
    failingEnv.SignBy (builtEvent failingEnv nodeFresh) = none ∧
    (EmitEvent failingEnv nodeFresh).2 = .error .signing ∧
    (EmitEvent failingEnv nodeFresh).1.emitter.transactions = [] ∧
    (EmitEvent failingEnv nodeFresh).1.store.GetPeerHeight = nodeFresh.store.GetPeerHeight ∧
    (EmitEvent failingEnv nodeFresh).1.store.GetEventHash = nodeFresh.store.GetEventHash ∧
    (EmitEvent failingEnv nodeFresh).1.store.GetEvent = nodeFresh.store.GetEvent :=
  ⟨by decide, rfl, C7_sign_failure failingEnv nodeFresh (by decide) rfl⟩

theorem candidates_of_no_peers (env : Env) (n : Node) (hp : n.peers = []) :
    candidates env n = [n.ID] := by
  have hlen := sortedPeers_length env n
  rw [hp, List.length_nil, List.length_eq_zero] at hlen
  unfold candidates selectedPeers
  rw [hlen]
  simp

/-- C8: the concrete scenario. A node with fan-in 3, no peers, an empty store
and an empty buffer emits an event with `Index` 1, `Parents = {ZeroEvent}`,
`LamportTime` 1 and no transactions; once that event is persisted as the
node's tip (height, hash and body recorded) and `"tx1"` is added, the next
`EmitEvent` returns an event with `Index` 2, `Parents` the singleton of the
first event's hash, `LamportTime` 2 and `ExternalTransactions = ["tx1"]`. -/
theorem C8_scenario (id : Peer) (env : Env) (hashOf : Event → EventHash)
    (hsign : ∀ e, (env.SignBy e).isSome)
    (hsave : ∀ e, (env.saveNewEvent emptyStore e).GetPeerHeight e.Creator = e.Index ∧
      (env.saveNewEvent emptyStore e).GetEventHash e.Creator e.Index = some (hashOf e) ∧
      (env.saveNewEvent emptyStore e).GetEvent (hashOf e) = some e) :
    ∃ e1, (EmitEvent env (scenarioNode id)).2 = .ok e1 ∧
      e1.Index = 1 ∧ e1.Creator = id ∧ e1.Parents = {ZeroEvent} ∧ e1.LamportTime = 1 ∧
      e1.ExternalTransactions = [] ∧
      ∃ e2, (EmitEvent env (AddTransaction (EmitEvent env (scenarioNode id)).1 tx1)).2
            = .ok e2 ∧
        e2.Index = 2 ∧ e2.Creator = id ∧ e2.Parents = {hashOf e1} ∧ e2.LamportTime = 2 ∧
        e2.ExternalTransactions = [tx1] := by
  have hK : (1 : Int) ≤ (scenarioNode id).conf.EventParentsCount := by
    show (1 : Int) ≤ (confOf 3).EventParentsCount
    decide
  have hc1 := candidates_of_no_peers env (scenarioNode id) rfl
  have hb1 : builtEvent env (scenarioNode id)
      = { Index := 1, Creator := id, Parents := {ZeroEvent}, LamportTime := 1,
          ExternalTransactions := [], Sign := none } := by
    unfold builtEvent
    rw [hc1]
    simp [resolveRefs, loopBody, newEvent, scenarioNode, emptyStore, uint64Size]
  obtain ⟨sig1, hsig1⟩ := EmitEvent_returns env (scenarioNode id) hK hsign
  obtain ⟨e1, he1, hidx, hcr, hpar, hlt, htx⟩ :
      ∃ e1, EmitEvent env (scenarioNode id)
          = ({ drained (scenarioNode id) with store := env.saveNewEvent emptyStore e1 },
              .ok e1) ∧
        e1.Index = 1 ∧ e1.Creator = id ∧ e1.Parents = {ZeroEvent} ∧ e1.LamportTime = 1 ∧
        e1.ExternalTransactions = [] := by
    refine ⟨signedEvent env (scenarioNode id) sig1, hsig1, ?_⟩
    simp [signedEvent, hb1]
  refine ⟨e1, by rw [he1], hidx, hcr, hpar, hlt, htx, ?_⟩
  rw [he1]
  obtain ⟨hs1, hs2, hs3⟩ := hsave e1
  rw [hcr, hidx] at hs1 hs2
  have hc2 := candidates_of_no_peers env
    (AddTransaction
      { drained (scenarioNode id) with store := env.saveNewEvent emptyStore e1 } tx1) rfl
  have hb2 : builtEvent env
      (AddTransaction
        { drained (scenarioNode id) with store := env.saveNewEvent emptyStore e1 } tx1)
      = { Index := 2, Creator := id, Parents := {hashOf e1}, LamportTime := 2,
          ExternalTransactions := [tx1], Sign := none } := by
    unfold builtEvent
    rw [hc2]
    simp [resolveRefs, loopBody, newEvent, AddTransaction, drained, scenarioNode,
      uint64Size, hs1, hs2, hs3, hlt]
  obtain ⟨sig2, hsig2⟩ := EmitEvent_returns env
    (AddTransaction
      { drained (scenarioNode id) with store := env.saveNewEvent emptyStore e1 } tx1)
    hK hsign
  refine ⟨signedEvent env
    (AddTransaction
      { drained (scenarioNode id) with store := env.saveNewEvent emptyStore e1 } tx1) sig2,
    ?_, ?_⟩
  · exact (congrArg Prod.snd hsig2).trans rfl
  · simp [signedEvent, hb2]

/-- C8, witness: the scenario for node 1 in the sample environment, whose
`saveNewEvent` records the tip with `sampleHash`. -/
theorem C8_scenario_witness :
    (∀ e, (sampleEnv.SignBy e).isSome) ∧
    (∀ e, (sampleEnv.saveNewEvent emptyStore e).GetPeerHeight e.Creator = e.Index ∧
      (sampleEnv.saveNewEvent emptyStore e).GetEventHash e.Creator e.Index
        = some (sampleHash e) ∧
      (sampleEnv.saveNewEvent emptyStore e).GetEvent (sampleHash e) = some e) ∧
    ∃ e1, (EmitEvent sampleEnv (scenarioNode 1)).2 = .ok e1 ∧
      e1.Index = 1 ∧ e1.Creator = 1 ∧ e1.Parents = {ZeroEvent} ∧ e1.LamportTime = 1 ∧
      e1.ExternalTransactions = [] ∧
      ∃ e2, (EmitEvent sampleEnv
          (AddTransaction (EmitEvent sampleEnv (scenarioNode 1)).1 tx1)).2 = .ok e2 ∧
        e2.Index = 2 ∧ e2.Creator = 1 ∧ e2.Parents = {sampleHash e1} ∧ e2.LamportTime = 2 ∧
        e2.ExternalTransactions = [tx1] :=
  ⟨fun _ => rfl, fun e => by simp [sampleEnv, persistTip],
    C8_scenario 1 sampleEnv sampleHash (fun _ => rfl)
      (fun e => by simp [sampleEnv, persistTip])⟩

/-- C9: with fan-in `K ≥ 1` (and a signer that succeeds), the event `EmitEvent`
returns has at most `K` parents; the node's own contribution (the genesis
marker, or its own resolved tip) is at most one of them, and once it is taken
away at most `K - 1` parents remain: at most `K - 1` parents come from
candidates other than the node itself. -/
theorem C9_fan_in (env : Env) (n : Node) (hK : 1 ≤ n.conf.EventParentsCount)
    (hsign : ∀ e, (env.SignBy e).isSome) :
    ∃ e, (EmitEvent env n).2 = .ok e ∧
      (e.Parents.card : Int) ≤ n.conf.EventParentsCount ∧
      (((e.Parents \ contribution n n.ID).card : Nat) : Int)
        ≤ n.conf.EventParentsCount - 1 ∧
      contribution n n.ID ⊆ e.Parents ∧
      (contribution n n.ID).card ≤ 1 ∧
      (n.store.GetPeerHeight n.ID < 1 → contribution n n.ID = {ZeroEvent}) ∧
      (∀ x ∈ contribution n n.ID, x = ZeroEvent ∨
        n.store.GetEventHash n.ID (n.store.GetPeerHeight n.ID) = some x) := by
  obtain ⟨sig, hsig⟩ := EmitEvent_returns env n hK hsign
  have hsel := selectedPeers_length_le env n hK
  refine ⟨signedEvent env n sig, by rw [hsig], ?_, ?_, ?_, contribution_card_le n n.ID, ?_, ?_⟩
  · show (((resolveRefs n (candidates env n)).parents.card : Nat) : Int) ≤ _
    have hcard := resolveRefs_card_le n (candidates env n)
    have hlen : (candidates env n).length = (selectedPeers env n).length + 1 := by
      unfold candidates
      simp
    omega
  · have hsub :
        (signedEvent env n sig).Parents \ contribution n n.ID
          ⊆ (resolveRefs n (selectedPeers env n)).parents := by
      intro x hx
      rw [Finset.mem_sdiff] at hx
      obtain ⟨hxp, hxo⟩ := hx
      have hxp2 : x ∈ (builtEvent env n).Parents := hxp
      rw [mem_builtEvent_Parents] at hxp2
      obtain ⟨c, hc, hmem⟩ := hxp2
      rw [mem_resolveRefs_parents]
      refine ⟨c, ?_, hmem⟩
      unfold candidates at hc
      rw [List.mem_append, List.mem_singleton] at hc
      rcases hc with hc | hc
      · exact hc
      · subst hc
        exact absurd hmem hxo
    have h1 := Finset.card_le_card hsub
    have h2 := resolveRefs_card_le n (selectedPeers env n)
    omega
  · intro x hx
    show x ∈ (builtEvent env n).Parents
    rw [mem_builtEvent_Parents]
    exact ⟨n.ID, self_mem_candidates env n, hx⟩
  · intro h0
    unfold contribution
    rw [if_pos h0, if_pos rfl]
  · intro x hx
    rcases (mem_contribution n n.ID x).1 hx with ⟨-, -, hz⟩ | ⟨-, hh, -⟩
    · exact Or.inl hz
    · exact Or.inr hh

/-- C9, witness: `nodeCrowded` has fan-in 2, its own tip and two peers that
both resolve; only the first peer is kept, the parents are the own tip 7 and
that peer's tip 8, and exactly one parent is left once the own tip is taken
away. -/
theorem C9_fan_in_witness :
    1 ≤ nodeCrowded.conf.EventParentsCount ∧ (∀ e, (sampleEnv.SignBy e).isSome) ∧
    (∃ e, (EmitEvent sampleEnv nodeCrowded).2 = .ok e ∧ e.Parents = {7, 8} ∧
      (e.Parents \ contribution nodeCrowded nodeCrowded.ID).card = 1) ∧
    ∃ e, (EmitEvent sampleEnv nodeCrowded).2 = .ok e ∧
      (e.Parents.card : Int) ≤ nodeCrowded.conf.EventParentsCount ∧
      (((e.Parents \ contribution nodeCrowded nodeCrowded.ID).card : Nat) : Int)
        ≤ nodeCrowded.conf.EventParentsCount - 1 ∧
      contribution nodeCrowded nodeCrowded.ID ⊆ e.Parents ∧
      (contribution nodeCrowded nodeCrowded.ID).card ≤ 1 ∧
      (nodeCrowded.store.GetPeerHeight nodeCrowded.ID < 1 →
        contribution nodeCrowded nodeCrowded.ID = {ZeroEvent}) ∧
      (∀ x ∈ contribution nodeCrowded nodeCrowded.ID, x = ZeroEvent ∨
        nodeCrowded.store.GetEventHash nodeCrowded.ID
          (nodeCrowded.store.GetPeerHeight nodeCrowded.ID) = some x) :=
  ⟨by decide, fun _ => rfl, ⟨_, rfl, by decide, by decide⟩,
    C9_fan_in sampleEnv nodeCrowded (by decide) (fun _ => rfl)⟩

/-! ## Sequential runs -/

theorem run_indices_from (env : Env) (hsign : ∀ e, (env.SignBy e).isSome)
    (hsave : ∀ s e, (env.saveNewEvent s e).GetPeerHeight e.Creator = e.Index)
    (cs : List Call) :
    ∀ (n : Node) (k : Nat), 1 ≤ n.conf.EventParentsCount →
      n.store.GetPeerHeight n.ID = k % uint64Size →
      (run env n cs).2.map (fun e => e.Index)
        = (List.range (emitCount cs)).map (fun i => (k + i + 1) % uint64Size) := by
  induction cs with
  | nil =>
    intro n k _ _
    simp [run, emitCount]
  | cons c cs ih =>
    intro n k hK hh
    cases c with
    | AddTransaction t =>
      rw [run, emitCount]
      exact ih (AddTransaction n t) k hK hh
    | EmitEvent =>
      obtain ⟨sig, hsig⟩ := EmitEvent_returns env n hK hsign
      have hidx : (signedEvent env n sig).Index = (k + 1) % uint64Size := by
        show (builtEvent env n).Index = _
        rw [builtEvent_Index, hh]
        unfold uint64Size
        split <;> omega
      have hnext := ih
        { drained n with store := env.saveNewEvent n.store (signedEvent env n sig) } (k + 1) hK
        (by
          show (env.saveNewEvent n.store (signedEvent env n sig)).GetPeerHeight
            (signedEvent env n sig).Creator = _
          rw [hsave, hidx])
      rw [run, hsig, emitCount]
      simp only [List.map_cons, hnext, hidx, List.range_succ_eq_map, List.map_map]
      refine congrArg₂ List.cons rfl (List.map_congr_left ?_)
      intro i _
      show (k + 1 + i + 1) % uint64Size = (k + (i + 1) + 1) % uint64Size
      congr 1
      omega

theorem emitCount_replicate (m : Nat) : emitCount (List.replicate m Call.EmitEvent) = m := by
  induction m with
  | zero => rfl
  | succ m ih => rw [List.replicate_succ, emitCount, ih]

theorem sampleEnv_saves_tip (s : Store) (e : Event) :
    (sampleEnv.saveNewEvent s e).GetPeerHeight e.Creator = e.Index := by
  simp [sampleEnv, persistTip]

/-- C10, counterexample: on a node that starts with no own event and persists
every emitted event as its tip, the `2 ^ 64`-th sequential `EmitEvent` returns
an event with `Index` 0, not `2 ^ 64`. -/
theorem C10_counterexample :
    ∃ e, (run sampleEnv nodeAlone
        (List.replicate 18446744073709551616 Call.EmitEvent)).2[18446744073709551615]?
          = some e ∧
      e.Index = 0 := by
  have h := run_indices_from sampleEnv (fun _ => rfl) sampleEnv_saves_tip
    (List.replicate 18446744073709551616 Call.EmitEvent) nodeAlone 0 (by decide) (by decide)
  rw [emitCount_replicate] at h
  have hi := congrArg (fun l => l[18446744073709551615]?) h
  simp only [List.getElem?_map] at hi
  rw [List.getElem?_range (by decide)] at hi
  cases hget : (run sampleEnv nodeAlone
      (List.replicate 18446744073709551616 Call.EmitEvent)).2[18446744073709551615]? with
  | none => rw [hget] at hi; cases hi
  | some e =>
    rw [hget] at hi
    refine ⟨e, rfl, ?_⟩
    have hv : e.Index = (0 + 18446744073709551615 + 1) % uint64Size :=
      Option.some.inj hi
    rw [hv]
    decide

/-- C10, as amended: for a node that starts with no own event (fan-in at least
1, signer succeeding), when every emitted event is persisted as its creator's
chain tip (the recorded height becomes the event's `Index`), a sequential run
of `AddTransaction` and `EmitEvent` calls returns one event per `EmitEvent`
call, and the `n`-th of them has `Index` equal to `n` modulo `2 ^ 64`: the
indices are 1, 2, 3, ... without gap or repeat for the first `2 ^ 64 - 1`
events, whatever the interleaved `AddTransaction` calls and the peer data. -/
theorem C10_contiguous_indices (env : Env) (n : Node) (hK : 1 ≤ n.conf.EventParentsCount)
    (hsign : ∀ e, (env.SignBy e).isSome)
    (hsave : ∀ s e, (env.saveNewEvent s e).GetPeerHeight e.Creator = e.Index)
    (h0 : n.store.GetPeerHeight n.ID < 1) (cs : List Call) :
    (run env n cs).2.length = emitCount cs ∧
    (run env n cs).2.map (fun e => e.Index)
      = (List.range (emitCount cs)).map (fun i => (i + 1) % uint64Size) ∧
    ∀ i e, (run env n cs).2[i]? = some e → i + 1 < uint64Size → e.Index = i + 1 := by
  have h := run_indices_from env hsign hsave cs n 0 hK (by
    have : n.store.GetPeerHeight n.ID = 0 := by omega
    rw [this]
    rfl)
  simp only [Nat.zero_add] at h
  refine ⟨?_, h, ?_⟩
  · have hl := congrArg List.length h
    simpa using hl
  · intro i e hget hlt
    have hi := congrArg (fun l => l[i]?) h
    simp only [List.getElem?_map, hget, Option.map_some'] at hi
    cases hr : (List.range (emitCount cs))[i]? with
    | none => rw [hr] at hi; cases hi
    | some j =>
      rw [hr] at hi
      have hj : j = i := by
        have hlt2 : i < (List.range (emitCount cs)).length := by
          by_contra hcon
          rw [List.getElem?_eq_none (by omega)] at hr
          cases hr
        rw [List.getElem?_eq_getElem hlt2, List.getElem_range] at hr
        exact (Option.some.inj hr).symm
      subst hj
      have hv : e.Index = (j + 1) % uint64Size := Option.some.inj hi
      rw [hv]
      exact Nat.mod_eq_of_lt hlt

/-- C10, witness: three emissions interleaved with a submission on `nodeAlone`. -/
theorem C10_contiguous_indices_witness :
    1 ≤ nodeAlone.conf.EventParentsCount ∧ (∀ e, (sampleEnv.SignBy e).isSome) ∧
    (∀ s e, (sampleEnv.saveNewEvent s e).GetPeerHeight e.Creator = e.Index) ∧
    nodeAlone.store.GetPeerHeight nodeAlone.ID < 1 ∧
    ((run sampleEnv nodeAlone
        [.EmitEvent, .AddTransaction tx1, .EmitEvent, .EmitEvent]).2.length
      = emitCount [.EmitEvent, .AddTransaction tx1, .EmitEvent, .EmitEvent] ∧
    (run sampleEnv nodeAlone
        [.EmitEvent, .AddTransaction tx1, .EmitEvent, .EmitEvent]).2.map (fun e => e.Index)
      = (List.range (emitCount [.EmitEvent, .AddTransaction tx1, .EmitEvent, .EmitEvent])).map
          (fun i => (i + 1) % uint64Size) ∧
    ∀ i e, (run sampleEnv nodeAlone
        [.EmitEvent, .AddTransaction tx1, .EmitEvent, .EmitEvent]).2[i]? = some e →
      i + 1 < uint64Size → e.Index = i + 1) :=
  ⟨by decide, fun _ => rfl, sampleEnv_saves_tip, by decide,
    C10_contiguous_indices sampleEnv nodeAlone (by decide) (fun _ => rfl)
      sampleEnv_saves_tip (by decide) _⟩

theorem run_batches (env : Env) (hsign : ∀ e, (env.SignBy e).isSome) (cs : List Call) :
    ∀ (n : Node), 1 ≤ n.conf.EventParentsCount →
      (run env n cs).2.map (fun e => e.ExternalTransactions)
          = batches n.emitter.transactions cs ∧
        (run env n cs).1.emitter.transactions = pending n.emitter.transactions cs := by
  induction cs with
  | nil =>
    intro n _
    exact ⟨rfl, rfl⟩
  | cons c cs ih =>
    intro n hK
    cases c with
    | AddTransaction t =>
      rw [run, batches, pending]
      exact ih (AddTransaction n t) hK
    | EmitEvent =>
      obtain ⟨sig, hsig⟩ := EmitEvent_returns env n hK hsign
      have hnext := ih
        { drained n with store := env.saveNewEvent n.store (signedEvent env n sig) } hK
      rw [run, hsig, batches, pending]
      exact ⟨congrArg₂ List.cons rfl hnext.1, hnext.2⟩

theorem run_indices_length (env : Env) (hsign : ∀ e, (env.SignBy e).isSome)
    (cs : List Call) :
    ∀ (n : Node), 1 ≤ n.conf.EventParentsCount → (run env n cs).2.length = emitCount cs := by
  induction cs with
  | nil =>
    intro n _
    rfl
  | cons c cs ih =>
    intro n hK
    cases c with
    | AddTransaction t =>
      rw [run, emitCount]
      exact ih (AddTransaction n t) hK
    | EmitEvent =>
      obtain ⟨sig, hsig⟩ := EmitEvent_returns env n hK hsign
      have hnext := ih
        { drained n with store := env.saveNewEvent n.store (signedEvent env n sig) } hK
      rw [run, hsig, emitCount, List.length_cons, hnext]

theorem batches_flatten (cs : List Call) :
    ∀ buf : List Payload,
      (batches buf cs).flatten ++ pending buf cs = buf ++ submitted cs := by
  induction cs with
  | nil => intro buf; simp [batches, pending, submitted]
  | cons c cs ih =>
    intro buf
    cases c with
    | AddTransaction t =>
      rw [batches, pending, submitted, ih]
      simp
    | EmitEvent =>
      rw [batches, pending, submitted, List.flatten_cons, List.append_assoc, ih]
      simp

theorem batches_no_emit (mid : List Call) (post : List Call) :
    ∀ buf : List Payload, emitCount mid = 0 →
      batches buf (mid ++ Call.EmitEvent :: post)
        = (buf ++ submitted mid) :: batches [] post := by
  induction mid with
  | nil => intro buf _; simp [batches, submitted]
  | cons c mid ih =>
    intro buf h
    cases c with
    | AddTransaction t =>
      rw [emitCount] at h
      rw [List.cons_append, batches, ih _ h, submitted]
      simp
    | EmitEvent =>
      rw [emitCount] at h
      omega

theorem batches_slot (pre : List Call) (t : Payload) (mid post : List Call)
    (hmid : emitCount mid = 0) :
    ∀ buf : List Payload,
      (batches buf (pre ++ Call.AddTransaction t :: (mid ++ Call.EmitEvent :: post)))[
          emitCount pre]?
        = some (pending buf pre ++ t :: submitted mid) := by
  induction pre with
  | nil =>
    intro buf
    rw [List.nil_append, batches, batches_no_emit mid post _ hmid, emitCount, pending]
    simp
  | cons c pre ih =>
    intro buf
    cases c with
    | AddTransaction u =>
      rw [List.cons_append, batches, emitCount, pending]
      exact ih _
    | EmitEvent =>
      rw [List.cons_append, batches, emitCount, pending, List.getElem?_cons_succ]
      exact ih _

theorem flatten_nodup_index {L : List (List Payload)} (h : L.flatten.Nodup)
    (i j : Nat) (a b : List Payload) (t : Payload)
    (hi : L[i]? = some a) (hj : L[j]? = some b) (ha : t ∈ a) (hb : t ∈ b) : i = j := by
  rw [List.nodup_flatten] at h
  have hp := List.pairwise_iff_getElem.1 h.2
  have hil : i < L.length := by
    by_contra hc
    rw [List.getElem?_eq_none (by omega)] at hi
    cases hi
  have hjl : j < L.length := by
    by_contra hc
    rw [List.getElem?_eq_none (by omega)] at hj
    cases hj
  rw [List.getElem?_eq_getElem hil] at hi
  rw [List.getElem?_eq_getElem hjl] at hj
  have hia := Option.some.inj hi
  have hjb := Option.some.inj hj
  rcases Nat.lt_trichotomy i j with hlt | heq | hgt
  · exact absurd hb (by rw [← hjb]; exact fun hb2 => hp i j hil hjl hlt (by rw [hia]; exact ha) hb2)
  · exact heq
  · exact absurd ha (by rw [← hia]; exact fun ha2 => hp j i hjl hil hgt (by rw [hjb]; exact hb) ha2)

/-- C1: in every sequential run of `AddTransaction` and `EmitEvent` calls on a
node (fan-in at least 1, signing always succeeding), every `EmitEvent` call
returns an event; the transaction lists of the returned events, chained in
order and followed by the final buffer, are exactly the initial buffer followed
by the submitted payloads in submission order, so that every submission
occupies exactly one place; a payload submitted before a later `EmitEvent` is
in the list of the first event emitted after its submission; and when the
payloads are pairwise different, no payload is in the lists of two different
events. -/
theorem C1_each_submission_in_one_event (env : Env) (n : Node)
    (hK : 1 ≤ n.conf.EventParentsCount) (hsign : ∀ e, (env.SignBy e).isSome)
    (cs : List Call) :
    (run env n cs).2.length = emitCount cs ∧
    ((run env n cs).2.map (fun e => e.ExternalTransactions)).flatten
        ++ (run env n cs).1.emitter.transactions
      = n.emitter.transactions ++ submitted cs ∧
    (∀ (pre : List Call) (t : Payload) (mid post : List Call),
      cs = pre ++ Call.AddTransaction t :: (mid ++ Call.EmitEvent :: post) →
      emitCount mid = 0 →
      ∃ e, (run env n cs).2[emitCount pre]? = some e ∧
        e.ExternalTransactions
          = (run env n pre).1.emitter.transactions ++ t :: submitted mid) ∧
    ((n.emitter.transactions ++ submitted cs).Nodup →
      ∀ (i j : Nat) (ei ej : Event) (t : Payload),
        (run env n cs).2[i]? = some ei → (run env n cs).2[j]? = some ej →
        t ∈ ei.ExternalTransactions → t ∈ ej.ExternalTransactions → i = j) := by
  have hrun := run_batches env hsign cs n hK
  have hflat :
      ((run env n cs).2.map (fun e => e.ExternalTransactions)).flatten
          ++ (run env n cs).1.emitter.transactions
        = n.emitter.transactions ++ submitted cs := by
    rw [hrun.1, hrun.2, batches_flatten]
  refine ⟨?_, hflat, ?_, ?_⟩
  · have hidx := run_indices_length env hsign cs n hK
    exact hidx
  · intro pre t mid post hcs hmid
    have hslot := batches_slot pre t mid post hmid n.emitter.transactions
    rw [← hcs, ← hrun.1, List.getElem?_map, ← (run_batches env hsign pre n hK).2] at hslot
    cases hget : (run env n cs).2[emitCount pre]? with
    | none => rw [hget] at hslot; cases hslot
    | some e =>
      rw [hget] at hslot
      exact ⟨e, rfl, Option.some.inj hslot⟩
  · intro hnd i j ei ej t hi hj hti htj
    rw [← hflat] at hnd
    have hfl := (List.nodup_append.1 hnd).1
    exact flatten_nodup_index hfl i j _ _ t
      (by rw [List.getElem?_map, hi]; rfl) (by rw [List.getElem?_map, hj]; rfl) hti htj

/-- C1, witness: the run `sampleCalls` on `nodeAlone`. -/
theorem C1_each_submission_in_one_event_witness :
    1 ≤ nodeAlone.conf.EventParentsCount ∧ (∀ e, (sampleEnv.SignBy e).isSome) ∧
    ((run sampleEnv nodeAlone sampleCalls).2.length = emitCount sampleCalls ∧
    ((run sampleEnv nodeAlone sampleCalls).2.map (fun e => e.ExternalTransactions)).flatten
        ++ (run sampleEnv nodeAlone sampleCalls).1.emitter.transactions
      = nodeAlone.emitter.transactions ++ submitted sampleCalls ∧
    (∀ (pre : List Call) (t : Payload) (mid post : List Call),
      sampleCalls = pre ++ Call.AddTransaction t :: (mid ++ Call.EmitEvent :: post) →
      emitCount mid = 0 →
      ∃ e, (run sampleEnv nodeAlone sampleCalls).2[emitCount pre]? = some e ∧
        e.ExternalTransactions
          = (run sampleEnv nodeAlone pre).1.emitter.transactions ++ t :: submitted mid) ∧
    ((nodeAlone.emitter.transactions ++ submitted sampleCalls).Nodup →
      ∀ (i j : Nat) (ei ej : Event) (t : Payload),
        (run sampleEnv nodeAlone sampleCalls).2[i]? = some ei →
        (run sampleEnv nodeAlone sampleCalls).2[j]? = some ej →
        t ∈ ei.ExternalTransactions → t ∈ ej.ExternalTransactions → i = j)) :=
  ⟨by decide, fun _ => rfl,
    C1_each_submission_in_one_event sampleEnv nodeAlone (by decide) (fun _ => rfl) sampleCalls⟩

/-! ## Buffer, signing and clock of a single `EmitEvent` -/

theorem EmitEvent_ok_inv (env : Env) (n : Node) (e : Event)
    (h : (EmitEvent env n).2 = .ok e) :
    ∃ refs sig, selectRefs env (drained n) = .ok refs ∧
      env.SignBy (newEvent (drained n) (resolveRefs (drained n) refs) n.emitter.transactions)
        = some sig ∧
      e = { newEvent (drained n) (resolveRefs (drained n) refs) n.emitter.transactions with
            Sign := some sig } ∧
      EmitEvent env n = ({ drained n with store := env.saveNewEvent n.store e }, .ok e) := by
  unfold EmitEvent at h ⊢
  unfold drained
  cases hsel : selectRefs env
      { n with emitter := { n.emitter with transactions := [] } } with
  | error p => simp only [hsel] at h; cases h
  | ok refs =>
    simp only [hsel] at h ⊢
    cases hs : env.SignBy (newEvent { n with emitter := { n.emitter with transactions := [] } }
        (resolveRefs { n with emitter := { n.emitter with transactions := [] } } refs)
        n.emitter.transactions) with
    | none => simp only [hs] at h; cases h
    | some sig =>
      simp only [hs] at h ⊢
      have he := Except.ok.inj h
      subst he
      exact ⟨refs, sig, rfl, hs, rfl, rfl⟩

theorem EmitEvent_error_inv (env : Env) (n : Node) (p : Panic)
    (h : (EmitEvent env n).2 = .error p) : (EmitEvent env n).1 = drained n := by
  unfold EmitEvent at h ⊢
  unfold drained
  cases hsel : selectRefs env
      { n with emitter := { n.emitter with transactions := [] } } with
  | error q => simp only [hsel]
  | ok refs =>
    simp only [hsel] at h ⊢
    cases hs : env.SignBy (newEvent { n with emitter := { n.emitter with transactions := [] } }
        (resolveRefs { n with emitter := { n.emitter with transactions := [] } } refs)
        n.emitter.transactions) with
    | none => simp only [hs]
    | some sig => simp only [hs] at h; cases h

/-- C11: a successful `EmitEvent` returns an event whose `ExternalTransactions`
are exactly the buffer content, in the same order, and leaves the buffer empty
(and with fan-in at least 1 and a signer that succeeds the call is successful);
`AddTransaction t` turns the buffer `b` into `b` followed by `t` and changes
nothing else of the node. -/
theorem C11_buffer_drain_and_append (env : Env) (n : Node) (t : Payload) :
    (∀ e, (EmitEvent env n).2 = .ok e →
      e.ExternalTransactions = n.emitter.transactions ∧
      (EmitEvent env n).1.emitter.transactions = []) ∧
    (1 ≤ n.conf.EventParentsCount → (∀ e, (env.SignBy e).isSome) →
      ∃ e, (EmitEvent env n).2 = .ok e) ∧
    (AddTransaction n t).emitter.transactions = n.emitter.transactions ++ [t] ∧
    (AddTransaction n t).emitter.done = n.emitter.done ∧
    (AddTransaction n t).ID = n.ID ∧
    (AddTransaction n t).conf = n.conf ∧
    (AddTransaction n t).store = n.store ∧
    (AddTransaction n t).peers = n.peers := by
  refine ⟨?_, ?_, rfl, rfl, rfl, rfl, rfl, rfl⟩
  · intro e he
    obtain ⟨refs, sig, -, -, hev, hres⟩ := EmitEvent_ok_inv env n e he
    constructor
    · rw [hev]
      rfl
    · rw [hres]
      rfl
  · intro hK hsign
    obtain ⟨sig, hsig⟩ := EmitEvent_returns env n hK hsign
    exact ⟨signedEvent env n sig, by rw [hsig]⟩

/-- C11, witness: `nodeFresh` holds one payload; the call succeeds and
returns it. -/
theorem C11_buffer_drain_and_append_witness :
    (∃ e, (EmitEvent sampleEnv nodeFresh).2 = .ok e) ∧
    1 ≤ nodeFresh.conf.EventParentsCount ∧ (∀ e, (sampleEnv.SignBy e).isSome) ∧
    ((∀ e, (EmitEvent sampleEnv nodeFresh).2 = .ok e →
      e.ExternalTransactions = nodeFresh.emitter.transactions ∧
      (EmitEvent sampleEnv nodeFresh).1.emitter.transactions = []) ∧
    (1 ≤ nodeFresh.conf.EventParentsCount → (∀ e, (sampleEnv.SignBy e).isSome) →
      ∃ e, (EmitEvent sampleEnv nodeFresh).2 = .ok e) ∧
    (AddTransaction nodeFresh tx2).emitter.transactions
      = nodeFresh.emitter.transactions ++ [tx2] ∧
    (AddTransaction nodeFresh tx2).emitter.done = nodeFresh.emitter.done ∧
    (AddTransaction nodeFresh tx2).ID = nodeFresh.ID ∧
    (AddTransaction nodeFresh tx2).conf = nodeFresh.conf ∧
    (AddTransaction nodeFresh tx2).store = nodeFresh.store ∧
    (AddTransaction nodeFresh tx2).peers = nodeFresh.peers) :=
  ⟨⟨_, rfl⟩, by decide, fun _ => rfl, C11_buffer_drain_and_append sampleEnv nodeFresh tx2⟩

/-- C12: `EmitEvent` persists and returns an event only after signing it
succeeded. Whenever it returns an event, that event is an unsigned event on
which `SignBy` succeeded, carrying the signature obtained, and it is the event
handed to `saveNewEvent`; whenever it does not return an event, the store is
the one before the call; and when the signer fails, no event is returned. -/
theorem C12_signed_before_saved (env : Env) (n : Node) :
    (∀ e, (EmitEvent env n).2 = .ok e →
      ∃ unsignedEvent sig, unsignedEvent.Sign = none ∧
        env.SignBy unsignedEvent = some sig ∧
        e = { unsignedEvent with Sign := some sig } ∧
        (EmitEvent env n).1.store = env.saveNewEvent n.store e) ∧
    (∀ p, (EmitEvent env n).2 = .error p → (EmitEvent env n).1.store = n.store) ∧
    ((∀ e, env.SignBy e = none) →
      ∃ p, (EmitEvent env n).2 = .error p ∧ (EmitEvent env n).1.store = n.store) := by
  refine ⟨?_, ?_, ?_⟩
  · intro e he
    obtain ⟨refs, sig, -, hs, hev, hres⟩ := EmitEvent_ok_inv env n e he
    exact ⟨_, sig, rfl, hs, hev, by rw [hres]⟩
  · intro p hp
    rw [EmitEvent_error_inv env n p hp]
    rfl
  · intro hfail
    cases hres : (EmitEvent env n).2 with
    | error p => exact ⟨p, rfl, by rw [EmitEvent_error_inv env n p hres]; rfl⟩
    | ok e =>
      obtain ⟨refs, sig, -, hs, -, -⟩ := EmitEvent_ok_inv env n e hres
      rw [hfail] at hs
      cases hs

/-- C12, witness: the statement at `nodeFresh`, where the call returns an
event with the signer that succeeds and panics with the one that fails. -/
theorem C12_signed_before_saved_witness :
    (∃ e, (EmitEvent sampleEnv nodeFresh).2 = .ok e) ∧
    (∀ e, failingEnv.SignBy e = none) ∧
    ((∀ e, (EmitEvent sampleEnv nodeFresh).2 = .ok e →
      ∃ unsignedEvent sig, unsignedEvent.Sign = none ∧
        sampleEnv.SignBy unsignedEvent = some sig ∧
        e = { unsignedEvent with Sign := some sig } ∧
        (EmitEvent sampleEnv nodeFresh).1.store = sampleEnv.saveNewEvent nodeFresh.store e) ∧
    (∀ p, (EmitEvent sampleEnv nodeFresh).2 = .error p →
      (EmitEvent sampleEnv nodeFresh).1.store = nodeFresh.store) ∧
    ((∀ e, sampleEnv.SignBy e = none) →
      ∃ p, (EmitEvent sampleEnv nodeFresh).2 = .error p ∧
        (EmitEvent sampleEnv nodeFresh).1.store = nodeFresh.store)) ∧
    ((∀ e, (EmitEvent failingEnv nodeFresh).2 = .ok e →
      ∃ unsignedEvent sig, unsignedEvent.Sign = none ∧
        failingEnv.SignBy unsignedEvent = some sig ∧
        e = { unsignedEvent with Sign := some sig } ∧
        (EmitEvent failingEnv nodeFresh).1.store = failingEnv.saveNewEvent nodeFresh.store e) ∧
    (∀ p, (EmitEvent failingEnv nodeFresh).2 = .error p →
      (EmitEvent failingEnv nodeFresh).1.store = nodeFresh.store) ∧
    ((∀ e, failingEnv.SignBy e = none) →
      ∃ p, (EmitEvent failingEnv nodeFresh).2 = .error p ∧
        (EmitEvent failingEnv nodeFresh).1.store = nodeFresh.store)) :=
  ⟨⟨_, rfl⟩, fun _ => rfl, C12_signed_before_saved sampleEnv nodeFresh,
    C12_signed_before_saved failingEnv nodeFresh⟩

theorem le_maxLamport (s : Store) (refs : List Peer) (c : Peer) (hc : c ∈ refs)
    (r : EventHash × Event) (hr : resolveTip s c = some r) :
    r.2.LamportTime ≤ maxLamport s refs := by
  induction refs with
  | nil => cases hc
  | cons a rest ih =>
    rw [maxLamport_cons]
    rcases List.mem_cons.1 hc with hca | hcr
    · subst hca
      have h1 : maxLamport s [c] = r.2.LamportTime := by
        simp [maxLamport, hr]
      omega
    · have h2 := ih hcr
      omega

theorem resolveTip_of_lookups (s : Store) (c : Peer) (x : EventHash) (ev : Event)
    (hh : 1 ≤ s.GetPeerHeight c) (hx : s.GetEventHash c (s.GetPeerHeight c) = some x)
    (hev : s.GetEvent x = some ev) : resolveTip s c = some (x, ev) := by
  unfold resolveTip
  rw [if_neg (by omega)]
  simp only [hx, hev]

/-- C13, counterexample: (1) a resolved parent with `LamportTime` `2 ^ 64 - 1`
is in the `Parents` of an event whose `LamportTime` is 0; (2) for a node with
no own event whose store holds an event with `LamportTime` 4 under the zero
hash, the zero hash is in the `Parents` of an event whose `LamportTime`
is 1. -/
theorem C13_counterexample :
    (∃ e ev, (EmitEvent sampleEnv nodeLateClock).2 = .ok e ∧ 7 ∈ e.Parents ∧
      nodeLateClock.store.GetEvent 7 = some ev ∧ e.LamportTime < ev.LamportTime) ∧
    (∃ e ev, (EmitEvent sampleEnv nodeGenesisBody).2 = .ok e ∧ ZeroEvent ∈ e.Parents ∧
      nodeGenesisBody.store.GetEvent ZeroEvent = some ev ∧ e.LamportTime < ev.LamportTime) :=
  ⟨⟨_, _, rfl, by decide, rfl, by decide⟩, ⟨_, _, rfl, by decide, rfl, by decide⟩⟩

/-- C13, as amended: for the event `EmitEvent` returns and every hash `p` in
its `Parents` that is a resolved parent (any member other than the genesis
marker added for a node without own event) and for which the store holds an
event, that event's `LamportTime` is at most the maximum over the resolved
candidates, and it is strictly less than the produced event's `LamportTime`
whenever that maximum is below `2 ^ 64 - 1` (no wrap of the `uint64`). -/
theorem C13_clock_above_parents (env : Env) (n : Node) (hK : 1 ≤ n.conf.EventParentsCount)
    (hsign : ∀ e, (env.SignBy e).isSome) :
    ∃ e, (EmitEvent env n).2 = .ok e ∧
      ∀ (p : EventHash) (ev : Event), p ∈ e.Parents → n.store.GetEvent p = some ev →
        (p ≠ ZeroEvent ∨ 1 ≤ n.store.GetPeerHeight n.ID) →
        ev.LamportTime ≤ maxLamport n.store (candidates env n) ∧
        (maxLamport n.store (candidates env n) < uint64Size - 1 →
          ev.LamportTime < e.LamportTime) := by
  obtain ⟨sig, hsig⟩ := EmitEvent_returns env n hK hsign
  refine ⟨signedEvent env n sig, by rw [hsig], ?_⟩
  intro p ev hp hev hres
  have hp2 : p ∈ (builtEvent env n).Parents := hp
  rw [mem_builtEvent_Parents] at hp2
  obtain ⟨c, hc, hmem⟩ := hp2
  have hle : ev.LamportTime ≤ maxLamport n.store (candidates env n) := by
    rcases (mem_contribution n c p).1 hmem with ⟨hlt, hid, hz⟩ | ⟨hh, hx, -⟩
    · subst hid
      rcases hres with hne | hown
      · exact absurd hz hne
      · omega
    · exact le_maxLamport n.store _ c hc (p, ev) (resolveTip_of_lookups n.store c p ev hh hx hev)
  refine ⟨hle, ?_⟩
  intro hlt
  show ev.LamportTime < (builtEvent env n).LamportTime
  rw [builtEvent_LamportTime, Nat.mod_eq_of_lt (by unfold uint64Size at *; omega)]
  omega

/-- C13, witness: `nodeFresh`, whose peer 2 resolves to an event with
`LamportTime` 4. -/
theorem C13_clock_above_parents_witness :
    1 ≤ nodeFresh.conf.EventParentsCount ∧ (∀ e, (sampleEnv.SignBy e).isSome) ∧
    ∃ e, (EmitEvent sampleEnv nodeFresh).2 = .ok e ∧
      ∀ (p : EventHash) (ev : Event), p ∈ e.Parents → nodeFresh.store.GetEvent p = some ev →
        (p ≠ ZeroEvent ∨ 1 ≤ nodeFresh.store.GetPeerHeight nodeFresh.ID) →
        ev.LamportTime ≤ maxLamport nodeFresh.store (candidates sampleEnv nodeFresh) ∧
        (maxLamport nodeFresh.store (candidates sampleEnv nodeFresh) < uint64Size - 1 →
          ev.LamportTime < e.LamportTime) :=
  ⟨by decide, fun _ => rfl,
    C13_clock_above_parents sampleEnv nodeFresh (by decide) (fun _ => rfl)⟩

/-- C17: exact characterisation of `Parents`. With fan-in at least 1 (and a
signer that succeeds) a hash `x` is in the `Parents` of the returned event if
and only if either `x` is `ZeroEvent` and the node's own recorded height is
below 1, or some candidate has recorded height `h ≥ 1`, the store's hash for
it at `h` is `x`, and the store holds an event for `x`. A candidate other than
the node with no recorded height contributes nothing, and so does a candidate
with a failed hash or event lookup. -/
theorem C17_parents_exact (env : Env) (n : Node) (hK : 1 ≤ n.conf.EventParentsCount)
    (hsign : ∀ e, (env.SignBy e).isSome) :
    ∃ e, (EmitEvent env n).2 = .ok e ∧
      (∀ x : EventHash, x ∈ e.Parents ↔
        (x = ZeroEvent ∧ n.store.GetPeerHeight n.ID < 1) ∨
        ∃ c ∈ candidates env n, 1 ≤ n.store.GetPeerHeight c ∧
          n.store.GetEventHash c (n.store.GetPeerHeight c) = some x ∧
          (n.store.GetEvent x).isSome) ∧
      (∀ c, c ≠ n.ID → n.store.GetPeerHeight c < 1 → contribution n c = ∅) ∧
      (∀ c, 1 ≤ n.store.GetPeerHeight c →
        n.store.GetEventHash c (n.store.GetPeerHeight c) = none → contribution n c = ∅) ∧
      (∀ c x, 1 ≤ n.store.GetPeerHeight c →
        n.store.GetEventHash c (n.store.GetPeerHeight c) = some x →
        n.store.GetEvent x = none → contribution n c = ∅) := by
  obtain ⟨sig, hsig⟩ := EmitEvent_returns env n hK hsign
  refine ⟨signedEvent env n sig, by rw [hsig], ?_, ?_, ?_, ?_⟩
  · intro x
    show x ∈ (builtEvent env n).Parents ↔ _
    rw [mem_builtEvent_Parents]
    constructor
    · rintro ⟨c, hc, hmem⟩
      rcases (mem_contribution n c x).1 hmem with ⟨hlt, hid, hz⟩ | hb
      · subst hid
        exact Or.inl ⟨hz, hlt⟩
      · exact Or.inr ⟨c, hc, hb⟩
    · rintro (⟨hz, hlt⟩ | ⟨c, hc, hb⟩)
      · exact ⟨n.ID, self_mem_candidates env n,
          (mem_contribution n n.ID x).2 (Or.inl ⟨hlt, rfl, hz⟩)⟩
      · exact ⟨c, hc, (mem_contribution n c x).2 (Or.inr hb)⟩
  · intro c hne hlt
    apply Finset.eq_empty_of_forall_not_mem
    intro y hy
    rcases (mem_contribution n c y).1 hy with ⟨-, hid, -⟩ | ⟨hh, -, -⟩
    · exact hne hid
    · omega
  · intro c hh hnone
    apply Finset.eq_empty_of_forall_not_mem
    intro y hy
    rcases (mem_contribution n c y).1 hy with ⟨hlt, -, -⟩ | ⟨-, hy1, -⟩
    · omega
    · rw [hnone] at hy1
      cases hy1
  · intro c x hh hx hev
    apply Finset.eq_empty_of_forall_not_mem
    intro y hy
    rcases (mem_contribution n c y).1 hy with ⟨hlt, -, -⟩ | ⟨-, hy1, hy2⟩
    · omega
    · rw [hx] at hy1
      rw [← Option.some.inj hy1, hev] at hy2
      cases hy2

/-- C17, witness: `nodeFresh`, with one peer that resolves and one without
record. -/
theorem C17_parents_exact_witness :
    1 ≤ nodeFresh.conf.EventParentsCount ∧ (∀ e, (sampleEnv.SignBy e).isSome) ∧
    ∃ e, (EmitEvent sampleEnv nodeFresh).2 = .ok e ∧
      (∀ x : EventHash, x ∈ e.Parents ↔
        (x = ZeroEvent ∧ nodeFresh.store.GetPeerHeight nodeFresh.ID < 1) ∨
        ∃ c ∈ candidates sampleEnv nodeFresh, 1 ≤ nodeFresh.store.GetPeerHeight c ∧
          nodeFresh.store.GetEventHash c (nodeFresh.store.GetPeerHeight c) = some x ∧
          (nodeFresh.store.GetEvent x).isSome) ∧
      (∀ c, c ≠ nodeFresh.ID → nodeFresh.store.GetPeerHeight c < 1 →
        contribution nodeFresh c = ∅) ∧
      (∀ c, 1 ≤ nodeFresh.store.GetPeerHeight c →
        nodeFresh.store.GetEventHash c (nodeFresh.store.GetPeerHeight c) = none →
        contribution nodeFresh c = ∅) ∧
      (∀ c x, 1 ≤ nodeFresh.store.GetPeerHeight c →
        nodeFresh.store.GetEventHash c (nodeFresh.store.GetPeerHeight c) = some x →
        nodeFresh.store.GetEvent x = none → contribution nodeFresh c = ∅) :=
  ⟨by decide, fun _ => rfl, C17_parents_exact sampleEnv nodeFresh (by decide) (fun _ => rfl)⟩

/-! ## The emission scheduler -/

theorem WorldOk_freshWorld (n : Node) (h : n.emitter.done = none) : WorldOk (freshWorld n) := by
  constructor
  · intro c hc
    cases hc
  · intro c hc
    rw [show (freshWorld n).node.emitter.done = n.emitter.done from rfl, h] at hc
    cases hc

theorem WorldOk_start (w : World) (h : WorldOk w) : WorldOk (StartEventEmission w) := by
  unfold StartEventEmission
  cases hd : w.node.emitter.done with
  | some c => exact h
  | none =>
    constructor
    · intro c hc
      exact Nat.lt_succ_of_lt (h.1 c hc)
    · intro c hc
      have hc2 : w.made = c := Option.some.inj hc
      subst hc2
      exact ⟨Nat.lt_succ_self _, fun hmem => Nat.lt_irrefl _ (h.1 _ hmem)⟩

theorem WorldOk_stop (w : World) (h : WorldOk w) : WorldOk (StopEventEmission w).1 := by
  unfold StopEventEmission
  cases hd : w.node.emitter.done with
  | none => exact h
  | some c =>
    by_cases hc : c ∈ w.closed
    · simp only [hc, if_true]
      exact h
    · simp only [hc, if_false]
      constructor
      · intro d hdm
        rcases List.mem_cons.1 hdm with hdc | hdw
        · subst hdc
          exact (h.2 d hd).1
        · exact h.1 d hdw
      · intro d hdm
        cases hdm

/-- C14, the code at the failing input: `StopEventEmission` on an emitter whose
`done` channel is nil closes the nil channel, which panics. -/
theorem C14_stop_when_stopped (w : World) (h : w.node.emitter.done = none) :
    schedState w = .Stopped ∧ (StopEventEmission w).2 = .error .closeOfNilChannel := by
  unfold schedState StopEventEmission
  rw [h]
  exact ⟨rfl, rfl⟩

/-- C14, witness: a node that was never started. -/
theorem C14_stop_when_stopped_witness :
    (freshWorld nodeAlone).node.emitter.done = none ∧
    schedState (freshWorld nodeAlone) = .Stopped ∧
    (StopEventEmission (freshWorld nodeAlone)).2 = .error .closeOfNilChannel :=
  ⟨rfl, C14_stop_when_stopped (freshWorld nodeAlone) rfl⟩

/-- C15: `StartEventEmission` on a running emitter changes nothing (same `done`
channel, no loop spawned), so starting twice is the same as starting once;
start takes Stopped to Running, spawning one loop, and stop takes Running
(with its `done` channel open, as start leaves it) to Stopped without
panicking. -/
theorem C15_start_idempotent (w : World) :
    (schedState w = .Running → StartEventEmission w = w) ∧
    StartEventEmission (StartEventEmission w) = StartEventEmission w ∧
    (schedState w = .Stopped →
      schedState (StartEventEmission w) = .Running ∧
      (StartEventEmission w).loops = w.loops ++ [{ pc := .selecting, tick := false }]) ∧
    (schedState w = .Running → WorldOk w →
      (StopEventEmission w).2 = .ok () ∧ schedState (StopEventEmission w).1 = .Stopped) ∧
    (WorldOk w → WorldOk (StartEventEmission w) ∧ WorldOk (StopEventEmission w).1) := by
  refine ⟨?_, ?_, ?_, ?_, fun h => ⟨WorldOk_start w h, WorldOk_stop w h⟩⟩
  · intro hr
    unfold schedState at hr
    unfold StartEventEmission
    cases hd : w.node.emitter.done with
    | none => rw [hd] at hr; cases hr
    | some c => rfl
  · unfold StartEventEmission
    cases hd : w.node.emitter.done with
    | none => rfl
    | some c => simp only [hd]
  · intro hs
    unfold schedState at hs ⊢
    unfold StartEventEmission
    cases hd : w.node.emitter.done with
    | none => exact ⟨rfl, rfl⟩
    | some c => rw [hd] at hs; cases hs
  · intro hr hok
    unfold schedState at hr ⊢
    unfold StopEventEmission
    cases hd : w.node.emitter.done with
    | none => rw [hd] at hr; cases hr
    | some c =>
      have hc : c ∉ w.closed := (hok.2 c hd).2
      simp [hc]

/-- C15, witness: the never-started world (Stopped) and the world after one
start (Running, `done` open). -/
theorem C15_start_idempotent_witness :
    schedState (freshWorld nodeAlone) = .Stopped ∧
    schedState (StartEventEmission (freshWorld nodeAlone)) = .Running ∧
    WorldOk (StartEventEmission (freshWorld nodeAlone)) ∧
    ((schedState (StartEventEmission (freshWorld nodeAlone)) = .Running →
      StartEventEmission (StartEventEmission (freshWorld nodeAlone))
        = StartEventEmission (freshWorld nodeAlone)) ∧
    StartEventEmission (StartEventEmission (StartEventEmission (freshWorld nodeAlone)))
      = StartEventEmission (StartEventEmission (freshWorld nodeAlone)) ∧
    (schedState (StartEventEmission (freshWorld nodeAlone)) = .Stopped →
      schedState (StartEventEmission (StartEventEmission (freshWorld nodeAlone))) = .Running ∧
      (StartEventEmission (StartEventEmission (freshWorld nodeAlone))).loops
        = (StartEventEmission (freshWorld nodeAlone)).loops
          ++ [{ pc := .selecting, tick := false }]) ∧
    (schedState (StartEventEmission (freshWorld nodeAlone)) = .Running →
      WorldOk (StartEventEmission (freshWorld nodeAlone)) →
      (StopEventEmission (StartEventEmission (freshWorld nodeAlone))).2 = .ok () ∧
      schedState (StopEventEmission (StartEventEmission (freshWorld nodeAlone))).1
        = .Stopped) ∧
    (WorldOk (StartEventEmission (freshWorld nodeAlone)) →
      WorldOk (StartEventEmission (StartEventEmission (freshWorld nodeAlone))) ∧
      WorldOk (StopEventEmission (StartEventEmission (freshWorld nodeAlone))).1)) :=
  ⟨rfl, rfl, WorldOk_start _ (WorldOk_freshWorld nodeAlone rfl),
    C15_start_idempotent (StartEventEmission (freshWorld nodeAlone))⟩

/-- C16, the code on two interleavings. (1) Stop is called while the loop is
inside `EmitEvent`: stop returns without panic and leaves the emitter Stopped
after one `EmitEvent` call; the loop then re-enters its `select`, reads the
nil `done`, takes the next tick and calls `EmitEvent` a second time. (2) Stop
is called while the loop waits in its `select` with a tick pending: both cases
can proceed, and when the tick case is chosen `EmitEvent` is called after stop
returned. -/
theorem C16_emit_after_stop :
    ((StopEventEmission (actAll sampleEnv (freshWorld nodeAlone) untilInsideEmit)).2 = .ok () ∧
      schedState (StopEventEmission
        (actAll sampleEnv (freshWorld nodeAlone) untilInsideEmit)).1 = .Stopped ∧
      (StopEventEmission
        (actAll sampleEnv (freshWorld nodeAlone) untilInsideEmit)).1.emitCalls = 1 ∧
      (actAll sampleEnv
        (StopEventEmission (actAll sampleEnv (freshWorld nodeAlone) untilInsideEmit)).1
        nextRound).emitCalls = 2 ∧
      (actAll sampleEnv
        (StopEventEmission (actAll sampleEnv (freshWorld nodeAlone) untilInsideEmit)).1
        (nextRound ++ nextRound)).emitCalls = 3) ∧
    ((StopEventEmission (actAll sampleEnv (freshWorld nodeAlone) untilTickPending)).2 = .ok () ∧
      schedState (StopEventEmission
        (actAll sampleEnv (freshWorld nodeAlone) untilTickPending)).1 = .Stopped ∧
      (StopEventEmission
        (actAll sampleEnv (freshWorld nodeAlone) untilTickPending)).1.emitCalls = 0 ∧
      (actAll sampleEnv
        (StopEventEmission (actAll sampleEnv (freshWorld nodeAlone) untilTickPending)).1
        [.loop 0 true]).emitCalls = 1) :=
  ⟨⟨rfl, by decide, by decide, by decide, by decide⟩,
    ⟨rfl, by decide, by decide, by decide⟩⟩

/-! ## Ranking and truncation -/

theorem set_of_getElem? (l : List Peer) (i : Nat) (a : Peer) (h : l[i]? = some a) :
    l.set i a = l := by
  induction l generalizing i with
  | nil => rfl
  | cons x xs ih =>
    cases i with
    | zero =>
      have hx : x = a := by simpa using h
      rw [List.set_cons_zero, hx]
    | succ i =>
      rw [List.set_cons_succ, ih i (by simpa using h)]

theorem set_set_perm (l : List Peer) (i j : Nat) (a b : Peer) (hi : l[i]? = some a)
    (hj : l[j]? = some b) : ((l.set i b).set j a).Perm l := by
  have hil : i < l.length := by
    by_contra hc
    rw [List.getElem?_eq_none (by omega)] at hi
    cases hi
  have hjl : j < l.length := by
    by_contra hc
    rw [List.getElem?_eq_none (by omega)] at hj
    cases hj
  rw [List.getElem?_eq_getElem hil] at hi
  rw [List.getElem?_eq_getElem hjl] at hj
  have ha : l[i] = a := Option.some.inj hi
  have hb : l[j] = b := Option.some.inj hj
  rw [List.perm_iff_count]
  intro c
  have hjl2 : j < (l.set i b).length := by rw [List.length_set]; exact hjl
  rw [List.count_set a c (l.set i b) j hjl2, List.count_set b c l i hil]
  have hget : (l.set i b)[j] = b := by
    rw [List.getElem_set]
    split
    · rfl
    · exact hb
  rw [hget, ha]
  have hpos : (if (a == c) = true then 1 else 0) ≤ l.count c := by
    split
    · rename_i hac
      have hac2 : a = c := by simpa using hac
      subst hac2
      exact List.count_pos_iff.2 (ha ▸ List.getElem_mem _)
    · omega
  omega

theorem Swap_perm (d : emitterEvaluation) (i j : Nat) : (d.Swap i j).peers.Perm d.peers := by
  unfold emitterEvaluation.Swap
  cases hi : d.peers[i]? with
  | none => exact List.Perm.refl _
  | some a =>
    cases hj : d.peers[j]? with
    | none => exact List.Perm.refl _
    | some b => exact set_set_perm d.peers i j a b hi hj

theorem Swap_same (d : emitterEvaluation) (i : Nat) : d.Swap i i = d := by
  unfold emitterEvaluation.Swap
  cases hi : d.peers[i]? with
  | none => rfl
  | some a =>
    show ({ peers := (d.peers.set i a).set i a } : emitterEvaluation) = d
    rw [List.set_set, set_of_getElem? d.peers i a hi]

theorem foldl_Swap_perm {len : Nat} (calls : List (Fin len × Fin len))
    (d : emitterEvaluation) :
    (calls.foldl (fun d ij => d.Swap ij.1.val ij.2.val) d).peers.Perm d.peers := by
  induction calls generalizing d with
  | nil => exact List.Perm.refl _
  | cons c cs ih =>
    rw [List.foldl_cons]
    exact (ih _).trans (Swap_perm d _ _)

theorem foldl_Swap_trivial {len : Nat} (calls : List (Fin len × Fin len))
    (htriv : ∀ ij ∈ calls, ij.1 = ij.2) (d : emitterEvaluation) :
    calls.foldl (fun d ij => d.Swap ij.1.val ij.2.val) d = d := by
  induction calls generalizing d with
  | nil => rfl
  | cons c cs ih =>
    rw [List.foldl_cons, ← htriv c (List.mem_cons_self _ _), Swap_same]
    exact ih (fun ij hij => htriv ij (List.mem_cons_of_mem _ hij)) d

theorem sortedPeers_perm (env : Env) (n : Node) : (sortedPeers env n).Perm n.peers := by
  unfold sortedPeers sortSort
  exact foldl_Swap_perm _ _

theorem take_min_length (l : List Peer) (k : Nat) : l.take (min l.length k) = l.take k := by
  rw [List.take_eq_take]
  omega

/-- C18: with fan-in at least 1 the candidate list `EmitEvent` resolves is the
first `min (len s) (K - 1)` peers of the ranked snapshot followed by the node's
own ID; the ranking is a permutation of the snapshot `s` and depends on the
snapshot only; the comparator reports `false` for every pair, and when the
library sort makes no effective swap for such a comparator (every `Swap` call
it makes has equal indexes), the ranked snapshot is `s` itself, so that the
candidates are the first `min (len s) (K - 1)` peers of `s` in snapshot
order followed by the node's ID. -/
theorem C18_candidate_list (env : Env) (n : Node) (hK : 1 ≤ n.conf.EventParentsCount) :
    selectRefs env n = .ok (candidates env n) ∧
    candidates env n
      = (sortedPeers env n).take (min n.peers.length (n.conf.EventParentsCount - 1).toNat)
          ++ [n.ID] ∧
    (sortedPeers env n).Perm n.peers ∧
    (∀ m : Node, m.peers = n.peers → sortedPeers env m = sortedPeers env n) ∧
    (∀ (d : emitterEvaluation) (i j : Nat), d.Less i j = false) ∧
    ((∀ (len : Nat) (less : Nat → Nat → Bool), (∀ i j, less i j = false) →
        ∀ ij ∈ env.sortCalls len less, ij.1 = ij.2) →
      sortedPeers env n = n.peers ∧
      candidates env n
        = n.peers.take (min n.peers.length (n.conf.EventParentsCount - 1).toNat)
            ++ [n.ID]) := by
  have hcand : candidates env n
      = (sortedPeers env n).take (min n.peers.length (n.conf.EventParentsCount - 1).toNat)
          ++ [n.ID] := by
    unfold candidates selectedPeers
    rw [← sortedPeers_length env n, take_min_length]
  refine ⟨selectRefs_of_pos env n hK, hcand, sortedPeers_perm env n, ?_, fun _ _ _ => rfl, ?_⟩
  · intro m hm
    unfold sortedPeers Node.emitterEvaluation
    rw [hm]
  · intro hlib
    have hsorted : sortedPeers env n = n.peers := by
      unfold sortedPeers sortSort
      rw [foldl_Swap_trivial _
        (hlib (n.emitterEvaluation n.peers).Len (n.emitterEvaluation n.peers).Less
          (fun _ _ => rfl))]
      rfl
    refine ⟨hsorted, ?_⟩
    rw [hcand, hsorted]

/-- C18, witness: `nodeFresh` (fan-in 3, peers 2 and 3) with the library sort
that makes no swap. -/
theorem C18_candidate_list_witness :
    1 ≤ nodeFresh.conf.EventParentsCount ∧
    (∀ (len : Nat) (less : Nat → Nat → Bool), (∀ i j, less i j = false) →
      ∀ ij ∈ sampleEnv.sortCalls len less, ij.1 = ij.2) ∧
    candidates sampleEnv nodeFresh = [2, 3, 1] ∧
    (selectRefs sampleEnv nodeFresh = .ok (candidates sampleEnv nodeFresh) ∧
    candidates sampleEnv nodeFresh
      = (sortedPeers sampleEnv nodeFresh).take
          (min nodeFresh.peers.length (nodeFresh.conf.EventParentsCount - 1).toNat)
          ++ [nodeFresh.ID] ∧
    (sortedPeers sampleEnv nodeFresh).Perm nodeFresh.peers ∧
    (∀ m : Node, m.peers = nodeFresh.peers →
      sortedPeers sampleEnv m = sortedPeers sampleEnv nodeFresh) ∧
    (∀ (d : emitterEvaluation) (i j : Nat), d.Less i j = false) ∧
    ((∀ (len : Nat) (less : Nat → Nat → Bool), (∀ i j, less i j = false) →
        ∀ ij ∈ sampleEnv.sortCalls len less, ij.1 = ij.2) →
      sortedPeers sampleEnv nodeFresh = nodeFresh.peers ∧
      candidates sampleEnv nodeFresh
        = nodeFresh.peers.take
            (min nodeFresh.peers.length (nodeFresh.conf.EventParentsCount - 1).toNat)
            ++ [nodeFresh.ID])) :=
  ⟨by decide, fun _ _ _ _ h => absurd h (List.not_mem_nil _), by decide,
    C18_candidate_list sampleEnv nodeFresh (by decide)⟩

theorem selectRefs_of_nonpos (env : Env) (n : Node)
    (hlo : -9223372036854775808 < n.conf.EventParentsCount)
    (hhi : n.conf.EventParentsCount ≤ 0) :
    selectRefs env n = .error .sliceBounds := by
  have hw : wrapInt (n.conf.EventParentsCount - 1) = n.conf.EventParentsCount - 1 :=
    wrapInt_of_inRange _ (by omega) (by omega)
  unfold selectRefs
  simp only [hw]
  rw [if_pos (by omega), if_pos (by omega)]

theorem selectRefs_of_minInt (env : Env) (n : Node)
    (hmin : n.conf.EventParentsCount = -9223372036854775808) :
    ∃ refs, selectRefs env n = .ok refs := by
  have hw : wrapInt (n.conf.EventParentsCount - 1) = 9223372036854775807 := by
    rw [hmin]
    decide
  unfold selectRefs
  simp only [hw]
  split
  · rw [if_neg (by omega)]
    exact ⟨_, rfl⟩
  · exact ⟨_, rfl⟩

/-- C19, counterexample: with `EventParentsCount` equal to the smallest `int`
(which is at most 0) the subtraction wraps to the largest `int`, no truncation
is attempted, and `EmitEvent` returns an event. -/
theorem C19_counterexample :
    nodeMinInt.conf.EventParentsCount ≤ 0 ∧
    selectRefs sampleEnv nodeMinInt = .ok [2, 3, 1] ∧
    ∃ e, (EmitEvent sampleEnv nodeMinInt).2 = .ok e :=
  ⟨by decide, rfl, ⟨_, rfl⟩⟩

/-- C19, as amended: for `EventParentsCount ≥ 1` the selection never takes the
out-of-range branch; for `EventParentsCount ≤ 0` other than the smallest `int`
the slice bound is negative for every snapshot, the selection panics, and
`EmitEvent` fails with that panic after the buffer has been emptied (nothing
else of the node changes); for the smallest `int` the subtraction wraps and the
selection does not panic. -/
theorem C19_truncation_bounds (env : Env) (n : Node) :
    (1 ≤ n.conf.EventParentsCount → selectRefs env n = .ok (candidates env n)) ∧
    (-9223372036854775808 < n.conf.EventParentsCount → n.conf.EventParentsCount ≤ 0 →
      selectRefs env n = .error .sliceBounds ∧
      EmitEvent env n = (drained n, .error .sliceBounds) ∧
      (EmitEvent env n).1.emitter.transactions = []) ∧
    (n.conf.EventParentsCount = -9223372036854775808 → ∃ refs, selectRefs env n = .ok refs) := by
  refine ⟨selectRefs_of_pos env n, ?_, selectRefs_of_minInt env n⟩
  intro hlo hhi
  have hsel : selectRefs env (drained n) = .error .sliceBounds :=
    selectRefs_of_nonpos env (drained n) hlo hhi
  have hemit : EmitEvent env n = (drained n, .error .sliceBounds) := by
    unfold EmitEvent
    unfold drained at hsel
    simp only [hsel]
    rfl
  exact ⟨selectRefs_of_nonpos env n hlo hhi, hemit, by rw [hemit]; rfl⟩

/-- C19, witness: fan-in 3 (`nodeFresh`), fan-in 0 (`nodeZeroK`, empty snapshot)
and the smallest `int` (`nodeMinInt`). -/
theorem C19_truncation_bounds_witness :
    1 ≤ nodeFresh.conf.EventParentsCount ∧
    selectRefs sampleEnv nodeFresh = .ok (candidates sampleEnv nodeFresh) ∧
    (-9223372036854775808 < nodeZeroK.conf.EventParentsCount ∧
      nodeZeroK.conf.EventParentsCount ≤ 0) ∧
    (selectRefs sampleEnv nodeZeroK = .error .sliceBounds ∧
      EmitEvent sampleEnv nodeZeroK = (drained nodeZeroK, .error .sliceBounds) ∧
      (EmitEvent sampleEnv nodeZeroK).1.emitter.transactions = []) ∧
    nodeMinInt.conf.EventParentsCount = -9223372036854775808 ∧
    ∃ refs, selectRefs sampleEnv nodeMinInt = .ok refs :=
  ⟨by decide, (C19_truncation_bounds sampleEnv nodeFresh).1 (by decide),
    ⟨by decide, by decide⟩,
    (C19_truncation_bounds sampleEnv nodeZeroK).2.1 (by decide) (by decide),
    rfl, (C19_truncation_bounds sampleEnv nodeMinInt).2.2 rfl⟩

end posnode
